import Mathlib

/-!
# pthread_event: `Event` and `SemLock`

A shallow embedding of `src/pthread_event/_pthread_event.c`.

* Every C function of the module becomes a Lean function of the same name.
* The object a method works on is passed in and handed back (`Outcome.state`).
* What the C library and the other threads do is an explicit input (`Env`): the
  clock reading, the error numbers, the value of the flag found when a condition
  wait returns.
* The library calls a function performs, in program order, are recorded in
  `Outcome.trace`, so that "without touching the lock" is a statement about data.
* A C `double` is a dyadic number `m * 2^e` together with the IEEE 754 binary64
  rounding (`roundDouble`) applied after every arithmetic operation.
* For the one statement about several threads, the setter and the waiters are run
  step by step under an arbitrary scheduler (`Sys`, `Sys.step`, `runSys`): the
  setter executes the trace of `Event_set`, a waiter the statements of `Event_wait`.
-/

namespace PthreadEvent

/-! ## C `double` arithmetic -/

/-- A value of the C type `double`. `finite m e` is the real number `m * 2^e`; every
binary64 number is of this form (with `|m| < 2^53` and `-1074 ≤ e`). The sign of
zero is not tracked: no operation used by the module depends on it. -/
inductive Double where
  | finite (m : Int) (e : Int)
  | posInf
  | negInf
  | nan
deriving DecidableEq

/-- Helper of `bitLength`, recursing on a fuel argument. -/
def bitLengthAux : Nat → Nat → Nat
  | 0, _ => 0
  | fuel + 1, n => if n = 0 then 0 else bitLengthAux fuel (n / 2) + 1

/-- Number of binary digits of `n` (0 for 0). -/
def bitLength (n : Nat) : Nat := bitLengthAux n n

/-- Nearest integer to `n / 2^s`, ties to even: the IEEE default rounding direction. -/
def roundHalfEven (n : Nat) (s : Nat) : Nat :=
  let q := n / 2 ^ s
  let r := n % 2 ^ s
  let half := 2 ^ (s - 1)
  if r < half then q
  else if half < r then q + 1
  else if q % 2 = 0 then q else q + 1

/-- Rounding of the exact value `m * 2^e` to binary64: at most 53 significant bits,
no bit below `2^-1074`, overflow to an infinity from `2^1024` on. -/
def roundDouble (m : Int) (e : Int) : Double :=
  let drop : Int := max ((bitLength m.natAbs : Int) - 53) (-1074 - e)
  let n : Nat := if drop ≤ 0 then m.natAbs else roundHalfEven m.natAbs drop.toNat
  let e' : Int := if drop ≤ 0 then e else e + drop
  if 1024 < (bitLength n : Int) + e' then (if 0 < m then Double.posInf else Double.negInf)
  else Double.finite (if 0 ≤ m then (n : Int) else -(n : Int)) e'

namespace Double

/-- Conversion of a `long` to `double` (the usual arithmetic conversion). -/
def ofLong (n : Int) : Double := roundDouble n 0

/-- Sign of a value: -1, 0 or 1 (0 for NaN). -/
def sign : Double → Int
  | finite m _ => Int.sign m
  | posInf => 1
  | negInf => -1
  | nan => 0

/-- The C comparison `x < 0`; false for NaN. -/
def ltZero : Double → Bool
  | finite m _ => decide (m < 0)
  | negInf => true
  | _ => false

/-- The sum `x + y` of two doubles, correctly rounded. -/
def add : Double → Double → Double
  | finite m₁ e₁, finite m₂ e₂ =>
    let e := min e₁ e₂
    roundDouble (m₁ * 2 ^ (e₁ - e).toNat + m₂ * 2 ^ (e₂ - e).toNat) e
  | nan, _ => nan
  | _, nan => nan
  | posInf, negInf => nan
  | negInf, posInf => nan
  | posInf, _ => posInf
  | _, posInf => posInf
  | negInf, _ => negInf
  | _, negInf => negInf

/-- The product `x * y` of two doubles, correctly rounded. -/
def mul : Double → Double → Double
  | finite m₁ e₁, finite m₂ e₂ => roundDouble (m₁ * m₂) (e₁ + e₂)
  | nan, _ => nan
  | _, nan => nan
  | x, y =>
    if sign x * sign y = 0 then nan
    else if 0 < sign x * sign y then posInf else negInf

/-- The C library function `fmod x y`: the remainder of the division truncated towards
zero; it is exact, has the sign of `x`, and is NaN for an infinite `x` or a zero `y`. -/
def fmod : Double → Double → Double
  | finite m₁ e₁, finite m₂ e₂ =>
    if m₂ = 0 then nan
    else
      let e := min e₁ e₂
      finite (Int.tmod (m₁ * 2 ^ (e₁ - e).toNat) (m₂ * 2 ^ (e₂ - e).toNat)) e
  | finite m e, posInf => finite m e
  | finite m e, negInf => finite m e
  | _, _ => nan

/-- Conversion of a `double` to a 64-bit `long`: the fraction is discarded. C leaves the
conversion of a NaN, of an infinity and of a value outside the range of `long`
undefined; the model then yields `indef`, a value chosen by the environment
(x86-64 gives `LONG_MIN`). -/
def toLong (indef : Int) : Double → Int
  | finite m e =>
    let v : Int := if 0 ≤ e then m * 2 ^ e.toNat else Int.tdiv m (2 ^ (-e).toNat)
    if -(2 ^ 63) ≤ v ∧ v < 2 ^ 63 then v else indef
  | _ => indef

end Double

/-! ## Python objects and results -/

/-- A Python object passed as `timeout`, seen through `PyFloat_AsDouble`: either it
converts to a C double, or the conversion raises. -/
inductive PyObject where
  | number (d : Double)
  | nonNumber
deriving DecidableEq

/-- The exception classes the module raises. -/
inductive PyExc where
  | ValueError
  | OSError
  | Exception
  | TypeError
deriving DecidableEq

/-- A pending Python exception: its class, the text given to `PyErr_Format`, and the
error number whose `strerror` text is appended (if any). -/
structure PyErr where
  exc : PyExc
  text : String
  errnum : Option Int
deriving DecidableEq

/-- What a method hands back to the interpreter. -/
inductive PyResult where
  | Py_True
  | Py_False
  | Py_None
  | raised (err : PyErr)
deriving DecidableEq

/-- `PyFloat_AsDouble`: `none` when the conversion raises. -/
def PyFloat_AsDouble : PyObject → Option Double
  | PyObject.number d => some d
  | PyObject.nonNumber => none

/-- `PyArg_ParseTuple` with the format `|O`: at most one positional argument;
`none` is the `TypeError` for a longer tuple, `some none` is `py_timeout == NULL`. -/
def PyArg_ParseTuple : List PyObject → Option (Option PyObject)
  | [] => some none
  | [o] => some (some o)
  | _ => none

/-- The helper `py_error_from_error`. -/
def py_error_from_error (pfx : String) (errnum : Int) : PyErr :=
  ⟨PyExc.OSError, pfx, some errnum⟩

/-! ## The C library as seen by one call -/

/-- The C `struct timeval`. -/
structure Timeval where
  tv_sec : Int
  tv_usec : Int
deriving DecidableEq

/-- The C `struct timespec`. -/
structure Timespec where
  tv_sec : Int
  tv_nsec : Int
deriving DecidableEq

/-- The constant `NANO_SEC` of the module. -/
def NANO_SEC : Int := 1000000000

/-- The value of `ETIMEDOUT` in the Linux `errno.h`. -/
def ETIMEDOUT : Int := 110

/-- The value of `EINTR` in the Linux `errno.h`. -/
def EINTR : Int := 4

/-- The library macro `TIMEVAL_TO_TIMESPEC` of `sys/time.h`. -/
def TIMEVAL_TO_TIMESPEC (tv : Timeval) : Timespec :=
  ⟨tv.tv_sec, tv.tv_usec * 1000⟩

/-- One step a function takes outside its own local variables: a library call, or a
store to the `flag` field. `cond_signal` is never issued by the module; it is listed
so that its absence can be stated. -/
inductive Op where
  | gettimeofday
  | mutex_init
  | mutex_destroy
  | cond_init
  | mutex_lock
  | mutex_unlock
  | cond_wait
  | cond_timedwait (abstime : Timespec)
  | cond_broadcast
  | cond_signal
  | store_flag (v : Fin 2)
  | sem_init (value : Nat)
  | sem_wait
  | sem_timedwait (abstime : Timespec)
  | sem_post
deriving DecidableEq

/-- Whether a step is one of the two condition-variable waits. -/
def Op.isCondWait : Op → Bool
  | Op.cond_wait => true
  | Op.cond_timedwait _ => true
  | _ => false

/-- Whether a step is one of the two semaphore waits. -/
def Op.isSemWait : Op → Bool
  | Op.sem_wait => true
  | Op.sem_timedwait _ => true
  | _ => false

/-- What the C library and the other threads contribute to one call. -/
structure Env where
  /-- The reading `gettimeofday` stores, or `none` when the call fails. -/
  now : Option Timeval
  /-- The `long` an out-of-range conversion of a `double` produces. -/
  indef : Int
  /-- The value of `errno` after a failing library call. -/
  errno : Int
  /-- The semaphore call is failed by the system although it could complete
  (invalid argument, signal, overflow of the count). -/
  fail : Bool
  /-- The return value of the condition wait; the module discards it. -/
  cond_ret : Int
  /-- The value of `flag` found when the condition wait returns with the mutex
  held again: other threads may have stored to it in the meantime. -/
  flag_after : Fin 2

/-- A method call that returned: its result, the object afterwards, the steps taken. -/
structure Outcome (σ : Type) where
  result : PyResult
  state : σ
  trace : List Op

/-- The library call `sem_wait` on a semaphore holding `count` permits: the return
value and the new count. A permit is taken when there is one and the system does not
fail the call; a wait that finds no permit ends with -1 (by a signal), the count as it
was. -/
def sem_wait (count : Nat) (env : Env) : Int × Nat :=
  if env.fail = true ∨ count = 0 then (-1, count) else (0, count - 1)

/-- The library call `sem_timedwait`: as `sem_wait`, a wait that finds no permit
ending at the deadline. -/
def sem_timedwait (count : Nat) (_abstime : Timespec) (env : Env) : Int × Nat :=
  if env.fail = true ∨ count = 0 then (-1, count) else (0, count - 1)

/-- The library call `sem_post`: one permit more, unless the system fails the call. -/
def sem_post (count : Nat) (env : Env) : Int × Nat :=
  if env.fail = true then (-1, count) else (0, count + 1)

/-! ## The shared timeout routine -/

/-- The function `parse_timeout`: the steps taken and either the pending exception
(return value -1) or the deadline written to `*timeout` (return value 0). -/
def parse_timeout (py_timeout : PyObject) (env : Env) : List Op × Except PyErr Timespec :=
  match PyFloat_AsDouble py_timeout with
  | none => ([], Except.error ⟨PyExc.ValueError, "\x27timeout\x27 is not a valid float", none⟩)
  | some t =>
    let timeout_seconds : Double := if t.ltZero = true then Double.finite 0 0 else t
    match env.now with
    | none => ([Op.gettimeofday], Except.error ⟨PyExc.OSError, "", some env.errno⟩)
    | some now =>
      let ts := TIMEVAL_TO_TIMESPEC now
      let tv_sec : Int :=
        Double.toLong env.indef (Double.add (Double.ofLong ts.tv_sec) timeout_seconds)
      let tv_nsec : Int :=
        Double.toLong env.indef
          (Double.add (Double.ofLong ts.tv_nsec)
            (Double.fmod (Double.mul timeout_seconds (Double.ofLong NANO_SEC))
              (Double.ofLong NANO_SEC)))
      if NANO_SEC ≤ tv_nsec then
        ([Op.gettimeofday], Except.ok ⟨tv_sec + 1, tv_nsec - NANO_SEC⟩)
      else
        ([Op.gettimeofday], Except.ok ⟨tv_sec, tv_nsec⟩)

/-- The common opening of `Event_wait` and `SemLock_acquire`: the deadline is
computed only when a timeout object was passed. -/
def parse_optional (py_timeout : Option PyObject) (env : Env) :
    List Op × Except PyErr (Option Timespec) :=
  match py_timeout with
  | none => ([], Except.ok none)
  | some o =>
    match parse_timeout o env with
    | (tr, Except.error err) => (tr, Except.error err)
    | (tr, Except.ok ts) => (tr, Except.ok (some ts))

/-! ## Event -/

/-- The C struct `Event`. Its mutex `lock` and condition variable `cond` are handles
of the C library: the calls made on them appear in the trace; the one field with a
value of its own is the one-bit `flag`. -/
structure Event where
  flag : Fin 2
deriving DecidableEq

/-- The constructor `Event_new`; `mutex_init` and `cond_init` are the return values of
the two initialisation calls. -/
def Event_new (mutex_init cond_init : Int) : List Op × Except PyErr Event :=
  if mutex_init ≠ 0 then
    ([Op.mutex_init], Except.error (py_error_from_error "Cannot init mutex" mutex_init))
  else if cond_init ≠ 0 then
    ([Op.mutex_init, Op.cond_init, Op.mutex_destroy],
      Except.error (py_error_from_error "Cannot init condition" cond_init))
  else
    ([Op.mutex_init, Op.cond_init, Op.store_flag 0], Except.ok ⟨0⟩)

/-- The method `Event_is_set`. -/
def Event_is_set (self : Event) : Outcome Event :=
  if self.flag = 0 then ⟨PyResult.Py_False, self, []⟩
  else ⟨PyResult.Py_True, self, []⟩

/-- The method `Event_set`. -/
def Event_set (self : Event) : Outcome Event :=
  ⟨PyResult.Py_None, { self with flag := 1 },
    [Op.mutex_lock, Op.store_flag 1, Op.cond_broadcast, Op.mutex_unlock]⟩

/-- The method `Event_clear`. -/
def Event_clear (self : Event) : Outcome Event :=
  ⟨PyResult.Py_None, { self with flag := 0 },
    [Op.mutex_lock, Op.store_flag 0, Op.mutex_unlock]⟩

/-- The method `Event_wait`. `self.flag` is the flag found once the mutex is held. -/
def Event_wait (self : Event) (args : List PyObject) (env : Env) : Outcome Event :=
  match PyArg_ParseTuple args with
  | none => ⟨PyResult.raised ⟨PyExc.TypeError, "wait", none⟩, self, []⟩
  | some py_timeout =>
    match parse_optional py_timeout env with
    | (tr, Except.error err) => ⟨PyResult.raised err, self, tr⟩
    | (tr, Except.ok timeout) =>
      let waited : Bool := decide (self.flag = 0)
      let wait_ops : List Op :=
        if waited = true then
          match timeout with
          | none => [Op.cond_wait]
          | some abstime => [Op.cond_timedwait abstime]
        else []
      let self₁ : Event := if waited = true then { self with flag := env.flag_after } else self
      let flag : Fin 2 := self₁.flag
      let trace := tr ++ [Op.mutex_lock] ++ wait_ops ++ [Op.mutex_unlock]
      if flag = 1 then ⟨PyResult.Py_True, self₁, trace⟩
      else ⟨PyResult.Py_False, self₁, trace⟩

/-! ## SemLock -/

/-- The C struct `SemLock`: `lock` is the semaphore, given by its number of permits;
`locked` is the one-bit bookkeeping field. -/
structure SemLock where
  lock : Nat
  locked : Fin 2
deriving DecidableEq

/-- The constructor `SemLock_new`; `sem_init_ret` is the return value of `sem_init`
and `errno` the error number it left. -/
def SemLock_new (sem_init_ret errno : Int) : List Op × Except PyErr SemLock :=
  if sem_init_ret ≠ 0 then
    ([Op.sem_init 1], Except.error (py_error_from_error "Cannot init sem" errno))
  else
    ([Op.sem_init 1], Except.ok ⟨1, 0⟩)

/-- The method `SemLock_acquire`. -/
def SemLock_acquire (self : SemLock) (args : List PyObject) (env : Env) : Outcome SemLock :=
  match PyArg_ParseTuple args with
  | none => ⟨PyResult.raised ⟨PyExc.TypeError, "timeout", none⟩, self, []⟩
  | some py_timeout =>
    match parse_optional py_timeout env with
    | (tr, Except.error err) => ⟨PyResult.raised err, self, tr⟩
    | (tr, Except.ok timeout) =>
      let call : Op × (Int × Nat) :=
        match timeout with
        | none => (Op.sem_wait, sem_wait self.lock env)
        | some abstime => (Op.sem_timedwait abstime, sem_timedwait self.lock abstime env)
      let error : Int := call.2.1
      let self₁ : SemLock := { self with lock := call.2.2 }
      if error ≠ 0 then
        if env.errno = ETIMEDOUT ∨ env.errno = EINTR then
          ⟨PyResult.Py_False, self₁, tr ++ [call.1]⟩
        else
          ⟨PyResult.raised (py_error_from_error "Cannot acquire" env.errno), self₁,
            tr ++ [call.1]⟩
      else
        ⟨PyResult.Py_True, { self₁ with locked := 1 }, tr ++ [call.1]⟩

/-- The method `SemLock_release`. -/
def SemLock_release (self : SemLock) (env : Env) : Outcome SemLock :=
  if self.locked = 0 then
    ⟨PyResult.raised ⟨PyExc.Exception, "release unlocked lock", none⟩, self, []⟩
  else
    let call : Int × Nat := sem_post self.lock env
    let self₁ : SemLock := { self with lock := call.2 }
    if call.1 ≠ 0 then
      ⟨PyResult.raised (py_error_from_error "Cannot release" env.errno), self₁, [Op.sem_post]⟩
    else
      ⟨PyResult.Py_None, { self₁ with locked := 0 }, [Op.sem_post]⟩

/-! ## Sequences of calls on one object -/

/-- A call of one of the two state-changing methods of an `Event` that need no
environment. -/
inductive EventCall where
  | set
  | clear
deriving DecidableEq

/-- The object after one `set` or `clear`. -/
def EventCall.apply (self : Event) : EventCall → Event
  | EventCall.set => (Event_set self).state
  | EventCall.clear => (Event_clear self).state

/-- The object after a sequence of `set` and `clear` calls, first call first. -/
def runEvent (self : Event) (calls : List EventCall) : Event :=
  calls.foldl EventCall.apply self

/-- A call of a method of a `SemLock`, with what the environment contributes to it. -/
inductive LockCall where
  | acquire (args : List PyObject) (env : Env)
  | release (env : Env)

/-- The outcome of one call on a `SemLock`. -/
def LockCall.apply (self : SemLock) : LockCall → Outcome SemLock
  | LockCall.acquire args env => SemLock_acquire self args env
  | LockCall.release env => SemLock_release self env

/-- The object after a sequence of calls, first call first. -/
def runLock (self : SemLock) : List LockCall → SemLock
  | [] => self
  | c :: cs => runLock (c.apply self).state cs

/-- What a call on a `SemLock` meant for the permit. -/
inductive LockEvent where
  | acquired
  | released
  | other
deriving DecidableEq

/-- The meaning of one call: `acquired` for an `acquire` that returned true, `released`
for a `release` that returned without raising, `other` for every failed call. -/
def LockCall.event (self : SemLock) : LockCall → LockEvent
  | LockCall.acquire args env =>
    if (SemLock_acquire self args env).result = PyResult.Py_True then LockEvent.acquired
    else LockEvent.other
  | LockCall.release env =>
    if (SemLock_release self env).result = PyResult.Py_None then LockEvent.released
    else LockEvent.other

/-- The meanings of the calls of a sequence, first call first. -/
def lockLog (self : SemLock) : List LockCall → List LockEvent
  | [] => []
  | c :: cs => c.event self :: lockLog (c.apply self).state cs

/-- The semaphore wait `SemLock_acquire` performs once the deadline is there. -/
def acquire_wait (self : SemLock) (timeout : Option Timespec) (env : Env) : Op × (Int × Nat) :=
  match timeout with
  | none => (Op.sem_wait, sem_wait self.lock env)
  | some abstime => (Op.sem_timedwait abstime, sem_timedwait self.lock abstime env)

/-- The timeout argument of a call is absent, or it is a number and the clock can be
read: the calls that get as far as their blocking primitive. -/
def UsableTimeout (args : List PyObject) (env : Env) : Prop :=
  args = [] ∨ ∃ (d : Double) (now : Timeval), args = [PyObject.number d] ∧ env.now = some now

/-- An environment in which nothing goes wrong: the clock reads 1700000000 s, no call is
failed by the system, a condition wait finds the flag set. -/
def calmEnv : Env := ⟨some ⟨1700000000, 0⟩, 0, 0, false, 0, 1⟩

/-- An environment in which a wait that gets no permit ends at its deadline. -/
def timedOutEnv : Env := ⟨some ⟨1700000000, 0⟩, 0, ETIMEDOUT, false, ETIMEDOUT, 0⟩

/-- An environment in which the system fails the semaphore call with `EINVAL` (22). -/
def failingEnv : Env := ⟨some ⟨1700000000, 0⟩, 0, 22, true, 0, 0⟩

/-- The timeout 0.5 as a Python float. -/
def halfSecond : PyObject := PyObject.number (Double.finite 1 (-1))

/-- The deadline in the words of the specification, for a finite timeout `m * 2^e` and a
clock reading `now`: the current time plus the timeout clamped at zero, the whole
seconds added to the seconds, the fractional part converted to whole nanoseconds and
added to the nanoseconds, a nanosecond overflow carried into the seconds. All of it
in exact integer arithmetic. -/
def compute_deadline_spec (now : Timeval) : Double → Option Timespec
  | Double.finite m e =>
    let clamped : Int := max m 0
    let whole : Int := if 0 ≤ e then clamped * 2 ^ e.toNat else clamped / 2 ^ (-e).toNat
    let nanos : Int :=
      if 0 ≤ e then 0 else (clamped % 2 ^ (-e).toNat) * NANO_SEC / 2 ^ (-e).toNat
    let nsec : Int := now.tv_usec * 1000 + nanos
    some ⟨now.tv_sec + whole + nsec / NANO_SEC, nsec % NANO_SEC⟩
  | _ => none

/-- The Python float `1 - 2**-24`, printed `0.9999999403953552`: the double
`16777215 * 2^-24`. -/
def almostOneSecond : Double := Double.finite 16777215 (-24)

/-! ## Threads: one `set` against the waiters blocked in `wait` -/

/-- The places a thread running `Event_wait` without a timeout passes through, in the
order of the source. -/
inductive WaitPc where
  /-- About to call `pthread_mutex_lock`. -/
  | mutex_lock
  /-- Holds the mutex, at `if (self->flag == 0)`. -/
  | test_flag
  /-- Inside `pthread_cond_wait`: the mutex given up, asleep on the condition. -/
  | cond_blocked
  /-- Inside `pthread_cond_wait`: woken, has to get the mutex back before returning. -/
  | cond_woken
  /-- Holds the mutex, at `flag = self->flag`. -/
  | read_flag
  /-- Holds the mutex, at `pthread_mutex_unlock`, the local `flag` read. -/
  | mutex_unlock (flag : Fin 2)
  /-- The call has returned `result`. -/
  | returned (result : PyResult)
deriving DecidableEq

/-- Whether a waiter at this place holds the mutex. -/
def WaitPc.holdsMutex : WaitPc → Bool
  | WaitPc.test_flag => true
  | WaitPc.read_flag => true
  | WaitPc.mutex_unlock _ => true
  | _ => false

/-- The effect of `pthread_cond_broadcast` (and of a spurious wakeup) on one waiter. -/
def WaitPc.wake : WaitPc → WaitPc
  | WaitPc.cond_blocked => WaitPc.cond_woken
  | pc => pc

/-- The number of steps a waiter still has to take. -/
def WaitPc.remaining : WaitPc → Nat
  | WaitPc.mutex_lock => 5
  | WaitPc.test_flag => 4
  | WaitPc.cond_blocked => 3
  | WaitPc.cond_woken => 3
  | WaitPc.read_flag => 2
  | WaitPc.mutex_unlock _ => 1
  | WaitPc.returned _ => 0

/-- The threads of the system: the one that calls `set`, and `N` that called `wait`. -/
inductive Tid (N : Nat) where
  | setter
  | waiter (i : Fin N)
deriving DecidableEq

/-- One `Event` shared by `N + 1` threads: its flag, the holder of its mutex, the steps
the setter still has to take (a suffix of the trace of `Event_set`), and the place of
every waiter. -/
structure Sys (N : Nat) where
  flag : Fin 2
  owner : Option (Tid N)
  setter : List Op
  waiters : Fin N → WaitPc

/-- What the scheduler can do next: let a thread take its next step, or wake a waiter
for no reason (POSIX allows a condition wait to return spuriously). -/
inductive Action (N : Nat) where
  | run (t : Tid N)
  | spurious (i : Fin N)

/-- The next step of the setter. A thread that wants a mutex held by another stays where
it is. Only the four steps `Event_set` takes are interpreted. -/
def stepSetter {N : Nat} (s : Sys N) : Sys N :=
  match s.setter with
  | Op.mutex_lock :: rest =>
    if s.owner = none then { s with owner := some Tid.setter, setter := rest } else s
  | Op.store_flag v :: rest => { s with flag := v, setter := rest }
  | Op.cond_broadcast :: rest =>
    { s with waiters := fun j => (s.waiters j).wake, setter := rest }
  | Op.mutex_unlock :: rest => { s with owner := none, setter := rest }
  | _ => s

/-- The next step of waiter `i`, following `Event_wait` called without a timeout. -/
def stepWaiter {N : Nat} (s : Sys N) (i : Fin N) : Sys N :=
  match s.waiters i with
  | WaitPc.mutex_lock =>
    if s.owner = none then
      { s with owner := some (Tid.waiter i),
               waiters := Function.update s.waiters i WaitPc.test_flag }
    else s
  | WaitPc.test_flag =>
    if s.flag = 0 then
      { s with owner := none, waiters := Function.update s.waiters i WaitPc.cond_blocked }
    else { s with waiters := Function.update s.waiters i WaitPc.read_flag }
  | WaitPc.cond_blocked => s
  | WaitPc.cond_woken =>
    if s.owner = none then
      { s with owner := some (Tid.waiter i),
               waiters := Function.update s.waiters i WaitPc.read_flag }
    else s
  | WaitPc.read_flag =>
    { s with waiters := Function.update s.waiters i (WaitPc.mutex_unlock s.flag) }
  | WaitPc.mutex_unlock flag =>
    { s with owner := none,
             waiters := Function.update s.waiters i
               (WaitPc.returned (if flag = 1 then PyResult.Py_True else PyResult.Py_False)) }
  | WaitPc.returned _ => s

/-- One action of the scheduler. -/
def Sys.step {N : Nat} (s : Sys N) : Action N → Sys N
  | Action.run Tid.setter => stepSetter s
  | Action.run (Tid.waiter i) => stepWaiter s i
  | Action.spurious i => { s with waiters := Function.update s.waiters i (s.waiters i).wake }

/-- A schedule, first action first. -/
def runSys {N : Nat} (s : Sys N) : List (Action N) → Sys N
  | [] => s
  | a :: rest => runSys (s.step a) rest

/-- The system at the start of a `set` call: `N` threads asleep in `wait`, the mutex
free, the setter with all of `Event_set` before it. -/
def blockedWaiters (N : Nat) (flag₀ : Fin 2) : Sys N :=
  ⟨flag₀, none, (Event_set ⟨flag₀⟩).trace, fun _ => WaitPc.cond_blocked⟩

/-- The steps all threads together still have to take. -/
def Sys.remaining {N : Nat} (s : Sys N) : Nat :=
  s.setter.length + ∑ i : Fin N, (s.waiters i).remaining

/-- A waiter that can no longer return false: asleep, woken, or past the reading of a
flag that was 1. -/
def WaitPc.afterSet : WaitPc → Bool
  | WaitPc.cond_blocked => true
  | WaitPc.cond_woken => true
  | WaitPc.read_flag => true
  | WaitPc.mutex_unlock flag => decide (flag = 1)
  | WaitPc.returned result => decide (result = PyResult.Py_True)
  | _ => false

/-- What holds of the system from the moment the setter has taken the mutex. -/
structure SetInv {N : Nat} (s : Sys N) : Prop where
  setter_shape :
    s.setter = [Op.store_flag 1, Op.cond_broadcast, Op.mutex_unlock] ∨
    s.setter = [Op.cond_broadcast, Op.mutex_unlock] ∨
    s.setter = [Op.mutex_unlock] ∨ s.setter = []
  setter_owner : s.owner = some Tid.setter ↔ s.setter ≠ []
  waiter_owner : ∀ i : Fin N, s.owner = some (Tid.waiter i) ↔ (s.waiters i).holdsMutex = true
  flag_set : s.setter = [Op.store_flag 1, Op.cond_broadcast, Op.mutex_unlock] ∨ s.flag = 1
  waiter_ok : ∀ i : Fin N, (s.waiters i).afterSet = true
  all_woken : s.setter.length ≤ 1 → ∀ i : Fin N, s.waiters i ≠ WaitPc.cond_blocked

/-! ## Facts about single calls -/

theorem sem_wait_cases (count : Nat) (env : Env) :
    (sem_wait count env = (0, count - 1) ∧ 0 < count ∧ env.fail = false) ∨
    (sem_wait count env = (-1, count) ∧ (env.fail = true ∨ count = 0)) := by
  unfold sem_wait
  by_cases h : env.fail = true ∨ count = 0
  · right; simp [h]
  · left
    push_neg at h
    refine ⟨by simp [h], Nat.pos_of_ne_zero h.2, by simpa using h.1⟩

theorem sem_timedwait_eq (count : Nat) (abstime : Timespec) (env : Env) :
    sem_timedwait count abstime env = sem_wait count env := rfl

theorem acquire_wait_snd (self : SemLock) (timeout : Option Timespec) (env : Env) :
    (acquire_wait self timeout env).2 = sem_wait self.lock env := by
  cases timeout <;> rfl

theorem acquire_wait_isSemWait (self : SemLock) (timeout : Option Timespec) (env : Env) :
    (acquire_wait self timeout env).1.isSemWait = true := by
  cases timeout <;> rfl

/-- The three ways `SemLock_acquire` ends once its argument tuple is accepted and the
deadline computed. -/
theorem SemLock_acquire_of_parse (self : SemLock) (args : List PyObject) (env : Env)
    (py_timeout : Option PyObject) (tr : List Op) (timeout : Option Timespec)
    (hargs : PyArg_ParseTuple args = some py_timeout)
    (hparse : parse_optional py_timeout env = (tr, Except.ok timeout)) :
    SemLock_acquire self args env =
      if (sem_wait self.lock env).1 ≠ 0 then
        if env.errno = ETIMEDOUT ∨ env.errno = EINTR then
          ⟨PyResult.Py_False, { self with lock := (sem_wait self.lock env).2 },
            tr ++ [(acquire_wait self timeout env).1]⟩
        else
          ⟨PyResult.raised (py_error_from_error "Cannot acquire" env.errno),
            { self with lock := (sem_wait self.lock env).2 },
            tr ++ [(acquire_wait self timeout env).1]⟩
      else
        ⟨PyResult.Py_True, { lock := (sem_wait self.lock env).2, locked := 1 },
          tr ++ [(acquire_wait self timeout env).1]⟩ := by
  unfold SemLock_acquire
  simp only [hargs, hparse]
  cases timeout <;> simp [acquire_wait, sem_timedwait_eq]

/-- Every call of `SemLock_acquire` either returns true, having taken one permit of a
positive count and set `locked`, or returns something else and leaves the object as
it was. -/
theorem SemLock_acquire_cases (self : SemLock) (args : List PyObject) (env : Env) :
    ((SemLock_acquire self args env).result = PyResult.Py_True ∧ 0 < self.lock ∧
        (SemLock_acquire self args env).state = ⟨self.lock - 1, 1⟩) ∨
    ((SemLock_acquire self args env).result ≠ PyResult.Py_True ∧
        (SemLock_acquire self args env).state = self) := by
  cases hargs : PyArg_ParseTuple args with
  | none => right; simp [SemLock_acquire, hargs]
  | some py_timeout =>
    rcases hparse : parse_optional py_timeout env with ⟨tr, res⟩
    cases res with
    | error err => right; simp [SemLock_acquire, hargs, hparse]
    | ok timeout =>
      rw [SemLock_acquire_of_parse self args env py_timeout tr timeout hargs hparse]
      rcases sem_wait_cases self.lock env with ⟨hw, hpos, -⟩ | ⟨hw, -⟩
      · left; simp [hw, hpos]
      · right
        by_cases he : env.errno = ETIMEDOUT ∨ env.errno = EINTR <;> simp [hw, he]

/-- Every call of `SemLock_release` either returns without raising, having found
`locked` set and added one permit, or raises and leaves the object as it was. -/
theorem SemLock_release_cases (self : SemLock) (env : Env) :
    ((SemLock_release self env).result = PyResult.Py_None ∧ self.locked = 1 ∧
        (SemLock_release self env).state = ⟨self.lock + 1, 0⟩) ∨
    ((SemLock_release self env).result ≠ PyResult.Py_None ∧
        (SemLock_release self env).state = self) := by
  unfold SemLock_release sem_post
  by_cases h0 : self.locked = 0
  · right; simp [h0]
  · have h1 : self.locked = 1 := by omega
    by_cases hf : env.fail = true
    · right; simp [h0, hf]
    · left; simp [h0, hf, h1]

theorem LockCall.event_acquired (s : SemLock) (c : LockCall)
    (h : c.event s = LockEvent.acquired) :
    0 < s.lock ∧ (c.apply s).state = ⟨s.lock - 1, 1⟩ := by
  cases c with
  | acquire args env =>
    rcases SemLock_acquire_cases s args env with ⟨-, hpos, hst⟩ | ⟨hne, -⟩
    · exact ⟨hpos, hst⟩
    · simp [LockCall.event, hne] at h
  | release env =>
    by_cases hr : (SemLock_release s env).result = PyResult.Py_None <;>
      simp [LockCall.event, hr] at h

theorem LockCall.event_released (s : SemLock) (c : LockCall)
    (h : c.event s = LockEvent.released) :
    s.locked = 1 ∧ (c.apply s).state = ⟨s.lock + 1, 0⟩ := by
  cases c with
  | acquire args env =>
    by_cases hr : (SemLock_acquire s args env).result = PyResult.Py_True <;>
      simp [LockCall.event, hr] at h
  | release env =>
    rcases SemLock_release_cases s env with ⟨-, hl, hst⟩ | ⟨hne, -⟩
    · exact ⟨hl, hst⟩
    · simp [LockCall.event, hne] at h

theorem LockCall.event_other (s : SemLock) (c : LockCall)
    (h : c.event s = LockEvent.other) : (c.apply s).state = s := by
  cases c with
  | acquire args env =>
    rcases SemLock_acquire_cases s args env with ⟨hr, -, -⟩ | ⟨-, hst⟩
    · simp [LockCall.event, hr] at h
    · exact hst
  | release env =>
    rcases SemLock_release_cases s env with ⟨hr, -, -⟩ | ⟨-, hst⟩
    · simp [LockCall.event, hr] at h
    · exact hst

/-- One call keeps `count + locked = 1`. -/
theorem lock_invariant_step (s : SemLock) (c : LockCall) (h : s.lock + s.locked.val = 1) :
    (c.apply s).state.lock + (c.apply s).state.locked.val = 1 := by
  cases he : c.event s with
  | acquired =>
    obtain ⟨hpos, hst⟩ := LockCall.event_acquired s c he
    rw [hst]
    show s.lock - 1 + 1 = 1
    omega
  | released =>
    obtain ⟨hl, hst⟩ := LockCall.event_released s c he
    rw [hst]
    have : s.locked.val = 1 := by rw [hl]; rfl
    show s.lock + 1 + 0 = 1
    omega
  | other => rw [LockCall.event_other s c he]; exact h

/-- A sequence of calls keeps `count + locked = 1`. -/
theorem lock_invariant_run (calls : List LockCall) :
    ∀ s : SemLock, s.lock + s.locked.val = 1 →
      (runLock s calls).lock + (runLock s calls).locked.val = 1 := by
  induction calls with
  | nil => intro s h; exact h
  | cons c cs ih => intro s h; exact ih _ (lock_invariant_step s c h)

/-- While the count is 0 no `acquire` returns true before a `release` has succeeded. -/
theorem no_acquire_while_empty (calls : List LockCall) :
    ∀ (s : SemLock) (mid post : List LockEvent), s.lock = 0 →
      lockLog s calls = mid ++ LockEvent.acquired :: post → LockEvent.released ∈ mid := by
  induction calls with
  | nil => intro s mid post _ hlog; simp [lockLog] at hlog
  | cons c cs ih =>
    intro s mid post hs hlog
    cases mid with
    | nil =>
      simp only [lockLog, List.nil_append, List.cons.injEq] at hlog
      have := (LockCall.event_acquired s c hlog.1).1
      omega
    | cons e mid' =>
      simp only [lockLog, List.cons_append, List.cons.injEq] at hlog
      obtain ⟨he, hrest⟩ := hlog
      cases hev : c.event s with
      | acquired =>
        have := (LockCall.event_acquired s c hev).1
        omega
      | released => rw [hev] at he; simp [← he]
      | other =>
        rw [LockCall.event_other s c hev] at hrest
        exact List.mem_cons_of_mem _ (ih s mid' post hs hrest)

/-- Under `count + locked = 1`, between two `acquire` calls that returned true there
is a `release` that succeeded. -/
theorem no_double_acquire (calls : List LockCall) :
    ∀ (s : SemLock) (pre mid post : List LockEvent), s.lock + s.locked.val = 1 →
      lockLog s calls = pre ++ LockEvent.acquired :: (mid ++ LockEvent.acquired :: post) →
      LockEvent.released ∈ mid := by
  induction calls with
  | nil => intro s pre mid post _ hlog; simp [lockLog] at hlog
  | cons c cs ih =>
    intro s pre mid post hs hlog
    cases pre with
    | nil =>
      simp only [lockLog, List.nil_append, List.cons.injEq] at hlog
      obtain ⟨hev, hrest⟩ := hlog
      obtain ⟨hpos, hst⟩ := LockCall.event_acquired s c hev
      refine no_acquire_while_empty cs _ mid post ?_ hrest
      rw [hst]
      show s.lock - 1 = 0
      omega
    | cons e pre' =>
      simp only [lockLog, List.cons_append, List.cons.injEq] at hlog
      exact ih _ pre' mid post (lock_invariant_step s c hs) hlog.2

theorem SemLock_new_ok (r errno : Int) (tr : List Op) (s₀ : SemLock)
    (h : SemLock_new r errno = (tr, Except.ok s₀)) : s₀ = ⟨1, 0⟩ := by
  unfold SemLock_new at h
  by_cases hr : r ≠ 0
  · simp [hr] at h
  · simp only [hr, if_false, Prod.mk.injEq, Except.ok.injEq] at h
    exact h.2.symm

/-! ## The claims about `SemLock` -/

/-- C1: after every finite sequence of `acquire` and `release` calls on a `SemLock` that
was just constructed, the permit count plus `locked` (as 0 or 1) is 1; so the count
never exceeds 1, and between two `acquire` calls that returned true there is always a
`release` that succeeded. -/
theorem C1_binary_lock_invariant (r errno : Int) (tr : List Op) (s₀ : SemLock)
    (calls : List LockCall) (hnew : SemLock_new r errno = (tr, Except.ok s₀)) :
    (runLock s₀ calls).lock + (runLock s₀ calls).locked.val = 1 ∧
    (runLock s₀ calls).lock ≤ 1 ∧
    ∀ pre mid post : List LockEvent,
      lockLog s₀ calls = pre ++ LockEvent.acquired :: (mid ++ LockEvent.acquired :: post) →
      LockEvent.released ∈ mid := by
  have h0 : s₀.lock + s₀.locked.val = 1 := by
    rw [SemLock_new_ok r errno tr s₀ hnew]; rfl
  have hinv := lock_invariant_run calls s₀ h0
  exact ⟨hinv, by omega, fun pre mid post => no_double_acquire calls s₀ pre mid post h0⟩

/-- Instance of C1: acquire, a second acquire that times out, release, acquire. -/
theorem C1_binary_lock_invariant_witness :
    SemLock_new 0 0 = ([Op.sem_init 1], Except.ok ⟨1, 0⟩) ∧
    (runLock ⟨1, 0⟩ [LockCall.acquire [] calmEnv, LockCall.acquire [] timedOutEnv,
        LockCall.release calmEnv, LockCall.acquire [] calmEnv]).lock +
      (runLock ⟨1, 0⟩ [LockCall.acquire [] calmEnv, LockCall.acquire [] timedOutEnv,
        LockCall.release calmEnv, LockCall.acquire [] calmEnv]).locked.val = 1 ∧
    (lockLog ⟨1, 0⟩ [LockCall.acquire [] calmEnv, LockCall.acquire [] timedOutEnv,
        LockCall.release calmEnv, LockCall.acquire [] calmEnv] =
      [] ++ LockEvent.acquired ::
        ([LockEvent.other, LockEvent.released] ++ LockEvent.acquired :: [])) ∧
    LockEvent.released ∈ [LockEvent.other, LockEvent.released] :=
  ⟨rfl,
    (C1_binary_lock_invariant 0 0 [Op.sem_init 1] ⟨1, 0⟩
      [LockCall.acquire [] calmEnv, LockCall.acquire [] timedOutEnv,
        LockCall.release calmEnv, LockCall.acquire [] calmEnv] rfl).1,
    by decide,
    (C1_binary_lock_invariant 0 0 [Op.sem_init 1] ⟨1, 0⟩
      [LockCall.acquire [] calmEnv, LockCall.acquire [] timedOutEnv,
        LockCall.release calmEnv, LockCall.acquire [] calmEnv] rfl).2.2
      [] [LockEvent.other, LockEvent.released] [] (by decide)⟩

/-- A usable timeout argument is accepted and its deadline computed, reading at most
the clock. -/
theorem parse_of_usable (args : List PyObject) (env : Env) (h : UsableTimeout args env) :
    ∃ (py_timeout : Option PyObject) (tr : List Op) (timeout : Option Timespec),
      PyArg_ParseTuple args = some py_timeout ∧
      parse_optional py_timeout env = (tr, Except.ok timeout) ∧
      (tr = [] ∨ tr = [Op.gettimeofday]) := by
  rcases h with rfl | ⟨d, now, rfl, hnow⟩
  · exact ⟨none, [], none, rfl, rfl, Or.inl rfl⟩
  · by_cases hc : NANO_SEC ≤ Double.toLong env.indef
        (Double.add (Double.ofLong (TIMEVAL_TO_TIMESPEC now).tv_nsec)
          (Double.fmod
            (Double.mul (if d.ltZero = true then Double.finite 0 0 else d)
              (Double.ofLong NANO_SEC))
            (Double.ofLong NANO_SEC)))
    · exact ⟨some (PyObject.number d), [Op.gettimeofday], _, rfl,
        by simp [parse_optional, parse_timeout, PyFloat_AsDouble, hnow, hc]; rfl, Or.inr rfl⟩
    · exact ⟨some (PyObject.number d), [Op.gettimeofday], _, rfl,
        by simp [parse_optional, parse_timeout, PyFloat_AsDouble, hnow, hc]; rfl, Or.inr rfl⟩

/-- C2: for every object and every absent or numeric timeout (the clock being readable),
`SemLock_acquire` performs one semaphore wait (`sem_timedwait` acts on the count as
`sem_wait` does) and then: if the wait returned 0, it sets `locked` and returns true; if
the wait failed with `ETIMEDOUT` or `EINTR`, it returns false and changes nothing; if
the wait failed otherwise, it raises the OS error "Cannot acquire" and changes
nothing. -/
theorem C2_acquire_outcomes (self : SemLock) (args : List PyObject) (env : Env)
    (h : UsableTimeout args env) :
    ((SemLock_acquire self args env).trace.filter Op.isSemWait).length = 1 ∧
    ((sem_wait self.lock env).1 = 0 →
      (SemLock_acquire self args env).result = PyResult.Py_True ∧
      (SemLock_acquire self args env).state.locked = 1) ∧
    ((sem_wait self.lock env).1 ≠ 0 → (env.errno = ETIMEDOUT ∨ env.errno = EINTR) →
      (SemLock_acquire self args env).result = PyResult.Py_False ∧
      (SemLock_acquire self args env).state = self) ∧
    ((sem_wait self.lock env).1 ≠ 0 → ¬ (env.errno = ETIMEDOUT ∨ env.errno = EINTR) →
      (SemLock_acquire self args env).result =
        PyResult.raised (py_error_from_error "Cannot acquire" env.errno) ∧
      (SemLock_acquire self args env).state = self) := by
  obtain ⟨py_timeout, tr, timeout, hargs, hparse, htr⟩ := parse_of_usable args env h
  rw [SemLock_acquire_of_parse self args env py_timeout tr timeout hargs hparse]
  have hop := acquire_wait_isSemWait self timeout env
  have hcount : ∀ r : PyResult, ∀ st : SemLock,
      ((Outcome.mk r st (tr ++ [(acquire_wait self timeout env).1])).trace.filter
        Op.isSemWait).length = 1 := by
    intro r st
    have hg : Op.gettimeofday.isSemWait = false := rfl
    rcases htr with rfl | rfl <;> simp [List.filter_cons, hop, hg]
  rcases sem_wait_cases self.lock env with ⟨hw, -, -⟩ | ⟨hw, -⟩
  · refine ⟨?_, ?_, ?_, ?_⟩
    · simp only [hw]; exact hcount _ _
    · intro _; simp [hw]
    · intro hne; simp [hw] at hne
    · intro hne; simp [hw] at hne
  · by_cases he : env.errno = ETIMEDOUT ∨ env.errno = EINTR
    · refine ⟨?_, ?_, ?_, ?_⟩
      · simp only [hw, he]; exact hcount _ _
      · intro h0; simp [hw] at h0
      · intro _ _; simp [hw, he]
      · intro _ hn; exact absurd he hn
    · refine ⟨?_, ?_, ?_, ?_⟩
      · simp only [hw, he]; exact hcount _ _
      · intro h0; simp [hw] at h0
      · intro _ hn; exact absurd hn he
      · intro _ _; simp [hw, he]

/-- Instance of C2: a held lock, the timeout 0.5, the wait ending at the deadline. -/
theorem C2_acquire_outcomes_witness :
    UsableTimeout [halfSecond] timedOutEnv ∧
    (sem_wait (SemLock.mk 0 1).lock timedOutEnv).1 ≠ 0 ∧
    (timedOutEnv.errno = ETIMEDOUT ∨ timedOutEnv.errno = EINTR) ∧
    (SemLock_acquire ⟨0, 1⟩ [halfSecond] timedOutEnv).result = PyResult.Py_False ∧
    (SemLock_acquire ⟨0, 1⟩ [halfSecond] timedOutEnv).state = ⟨0, 1⟩ :=
  ⟨Or.inr ⟨_, _, rfl, rfl⟩, by decide, Or.inl rfl,
    (C2_acquire_outcomes ⟨0, 1⟩ [halfSecond] timedOutEnv (Or.inr ⟨_, _, rfl, rfl⟩)).2.2.1
      (by decide) (Or.inl rfl)⟩

/-- C3: `SemLock_release` raises the state error "release unlocked lock" exactly when
`locked` is 0, and then performs no semaphore call and changes nothing; when `locked`
is 1 and `sem_post` fails, it raises the OS error "Cannot release", and `locked` is
still 1 (the object is unchanged). -/
theorem C3_release_failure (self : SemLock) (env : Env) :
    ((SemLock_release self env).result =
        PyResult.raised ⟨PyExc.Exception, "release unlocked lock", none⟩ ↔ self.locked = 0) ∧
    (self.locked = 0 →
      (SemLock_release self env).trace = [] ∧ (SemLock_release self env).state = self) ∧
    (self.locked = 1 → (sem_post self.lock env).1 ≠ 0 →
      (SemLock_release self env).result =
        PyResult.raised (py_error_from_error "Cannot release" env.errno) ∧
      (SemLock_release self env).state.locked = 1 ∧
      (SemLock_release self env).state = self) := by
  unfold SemLock_release sem_post
  by_cases h0 : self.locked = 0
  · simp [h0]
  · have h1 : self.locked = 1 := by omega
    have hself : (⟨self.lock, 1⟩ : SemLock) = self := by rw [← h1]
    by_cases hf : env.fail = true
    · simp [h1, hf, hself, py_error_from_error]
    · simp [h1, hf]

/-- Instance of C3: a release without a preceding acquire, and a release whose
`sem_post` the system fails. -/
theorem C3_release_failure_witness :
    (SemLock.mk 1 0).locked = 0 ∧
    (SemLock_release ⟨1, 0⟩ calmEnv).trace = [] ∧
    (SemLock_release ⟨1, 0⟩ calmEnv).state = ⟨1, 0⟩ ∧
    (SemLock.mk 0 1).locked = 1 ∧ (sem_post (SemLock.mk 0 1).lock failingEnv).1 ≠ 0 ∧
    (SemLock_release ⟨0, 1⟩ failingEnv).state.locked = 1 :=
  ⟨rfl, ((C3_release_failure ⟨1, 0⟩ calmEnv).2.1 rfl).1,
    ((C3_release_failure ⟨1, 0⟩ calmEnv).2.1 rfl).2, rfl, by decide,
    ((C3_release_failure ⟨0, 1⟩ failingEnv).2.2 rfl (by decide)).2.1⟩

/-- C4: on a `SemLock` that was just constructed (count 1, `locked` 0), an `acquire` that
returns true followed by a `release` that returns without raising gives back exactly
the constructed object: the release adds one permit and clears `locked`; the same
`acquire` then returns true again. -/
theorem C4_acquire_release_round_trip (r errno : Int) (tr : List Op) (s₀ : SemLock)
    (args : List PyObject) (env₁ env₂ : Env)
    (hnew : SemLock_new r errno = (tr, Except.ok s₀))
    (hacq : (SemLock_acquire s₀ args env₁).result = PyResult.Py_True)
    (hrel : (SemLock_release (SemLock_acquire s₀ args env₁).state env₂).result =
      PyResult.Py_None) :
    s₀ = ⟨1, 0⟩ ∧
    (SemLock_acquire s₀ args env₁).state = ⟨0, 1⟩ ∧
    (SemLock_release (SemLock_acquire s₀ args env₁).state env₂).state.lock =
      (SemLock_acquire s₀ args env₁).state.lock + 1 ∧
    (SemLock_release (SemLock_acquire s₀ args env₁).state env₂).state.locked = 0 ∧
    (SemLock_release (SemLock_acquire s₀ args env₁).state env₂).state = s₀ ∧
    (SemLock_acquire (SemLock_release (SemLock_acquire s₀ args env₁).state env₂).state
      args env₁).result = PyResult.Py_True := by
  have hs := SemLock_new_ok r errno tr s₀ hnew
  subst hs
  have ha : (SemLock_acquire ⟨1, 0⟩ args env₁).state = ⟨0, 1⟩ := by
    rcases SemLock_acquire_cases ⟨1, 0⟩ args env₁ with ⟨-, -, hst⟩ | ⟨hne, -⟩
    · exact hst
    · exact absurd hacq hne
  rw [ha] at hrel ⊢
  have hr : (SemLock_release ⟨0, 1⟩ env₂).state = ⟨1, 0⟩ := by
    rcases SemLock_release_cases ⟨0, 1⟩ env₂ with ⟨-, -, hst⟩ | ⟨hne, -⟩
    · exact hst
    · exact absurd hrel hne
  rw [hr]
  exact ⟨rfl, rfl, rfl, rfl, rfl, hacq⟩

/-- Instance of C4: acquire with the timeout 0.5 and release, nothing going wrong. -/
theorem C4_acquire_release_round_trip_witness :
    SemLock_new 0 0 = ([Op.sem_init 1], Except.ok ⟨1, 0⟩) ∧
    (SemLock_acquire ⟨1, 0⟩ [halfSecond] calmEnv).result = PyResult.Py_True ∧
    (SemLock_release (SemLock_acquire ⟨1, 0⟩ [halfSecond] calmEnv).state calmEnv).result =
      PyResult.Py_None ∧
    (SemLock_release (SemLock_acquire ⟨1, 0⟩ [halfSecond] calmEnv).state calmEnv).state =
      ⟨1, 0⟩ :=
  ⟨rfl, by decide, by decide,
    (C4_acquire_release_round_trip 0 0 [Op.sem_init 1] ⟨1, 0⟩ [halfSecond] calmEnv calmEnv
      rfl (by decide) (by decide)).2.2.2.2.1⟩

/-! ## The claims about `Event` -/

/-- What `Event_wait` does once its argument tuple is accepted and the deadline
computed. -/
theorem Event_wait_of_parse (self : Event) (args : List PyObject) (env : Env)
    (py_timeout : Option PyObject) (tr : List Op) (timeout : Option Timespec)
    (hargs : PyArg_ParseTuple args = some py_timeout)
    (hparse : parse_optional py_timeout env = (tr, Except.ok timeout)) :
    (self.flag = 1 →
      Event_wait self args env =
        ⟨PyResult.Py_True, self, tr ++ [Op.mutex_lock] ++ [] ++ [Op.mutex_unlock]⟩) ∧
    (self.flag = 0 →
      Event_wait self args env =
        ⟨if env.flag_after = 1 then PyResult.Py_True else PyResult.Py_False,
          ⟨env.flag_after⟩,
          tr ++ [Op.mutex_lock] ++
            (match timeout with
              | none => [Op.cond_wait]
              | some abstime => [Op.cond_timedwait abstime]) ++ [Op.mutex_unlock]⟩) := by
  constructor
  · intro h1
    unfold Event_wait
    simp [hargs, hparse, h1]
  · intro h0
    unfold Event_wait
    simp only [hargs, hparse, h0]
    by_cases hf : env.flag_after = 1 <;> cases timeout <;> simp [hf]

/-- C5: for every flag value, every absent or numeric timeout (the clock being readable)
and every way the condition wait returns (its return value `env.cond_ret` and the flag
`env.flag_after` it finds are arbitrary), `Event_wait` raises nothing, performs no store
to the flag and at most one condition wait, and returns the flag as it is after the
wait: the value found on return from the wait if it waited, the value found on entry
otherwise. A flag that is still 0 then gives false. -/
theorem C5_wait_returns_flag (self : Event) (args : List PyObject) (env : Env)
    (h : UsableTimeout args env) :
    (∀ err : PyErr, (Event_wait self args env).result ≠ PyResult.raised err) ∧
    (∀ v : Fin 2, Op.store_flag v ∉ (Event_wait self args env).trace) ∧
    ((Event_wait self args env).trace.filter Op.isCondWait).length ≤ 1 ∧
    (Event_wait self args env).state.flag =
      (if self.flag = 0 then env.flag_after else self.flag) ∧
    (Event_wait self args env).result =
      (if (Event_wait self args env).state.flag = 1 then PyResult.Py_True
        else PyResult.Py_False) ∧
    ((Event_wait self args env).state.flag = 0 →
      (Event_wait self args env).result = PyResult.Py_False) := by
  obtain ⟨py_timeout, tr, timeout, hargs, hparse, htr⟩ := parse_of_usable args env h
  obtain ⟨hset, hclear⟩ := Event_wait_of_parse self args env py_timeout tr timeout hargs hparse
  by_cases h0 : self.flag = 0
  · rw [hclear h0]
    by_cases hf : env.flag_after = 1
    · rcases htr with rfl | rfl <;> cases timeout <;> simp [h0, hf, Op.isCondWait]
    · have hf0 : env.flag_after = 0 := by omega
      rcases htr with rfl | rfl <;> cases timeout <;> simp [h0, hf0, Op.isCondWait]
  · have h1 : self.flag = 1 := by omega
    rw [hset h1]
    rcases htr with rfl | rfl <;> simp [h1, Op.isCondWait]

/-- Instance of C5: a wait with the timeout 0.5 on a clear flag that is still clear when
the wait ends at its deadline. -/
theorem C5_wait_returns_flag_witness :
    UsableTimeout [halfSecond] timedOutEnv ∧
    (Event_wait ⟨0⟩ [halfSecond] timedOutEnv).state.flag = 0 ∧
    (Event_wait ⟨0⟩ [halfSecond] timedOutEnv).result = PyResult.Py_False :=
  ⟨Or.inr ⟨_, _, rfl, rfl⟩, by decide,
    (C5_wait_returns_flag ⟨0⟩ [halfSecond] timedOutEnv (Or.inr ⟨_, _, rfl, rfl⟩)).2.2.2.2.2
      (by decide)⟩

/-- C6: `Event_wait` on a flag that is already set returns true and performs neither
`pthread_cond_wait` nor `pthread_cond_timedwait`, whatever the numeric timeout (the
clock being readable) and also without a timeout; the object is unchanged. -/
theorem C6_wait_on_set_flag (self : Event) (args : List PyObject) (env : Env)
    (h : UsableTimeout args env) (hset : self.flag = 1) :
    (Event_wait self args env).result = PyResult.Py_True ∧
    (∀ op ∈ (Event_wait self args env).trace, op.isCondWait = false) ∧
    (Event_wait self args env).state = self := by
  obtain ⟨py_timeout, tr, timeout, hargs, hparse, htr⟩ := parse_of_usable args env h
  rw [(Event_wait_of_parse self args env py_timeout tr timeout hargs hparse).1 hset]
  rcases htr with rfl | rfl <;> simp [Op.isCondWait]

/-- Instance of C6: a set flag, the timeout 0.5, an environment whose condition wait
would have found the flag clear. -/
theorem C6_wait_on_set_flag_witness :
    UsableTimeout [halfSecond] timedOutEnv ∧ (Event.mk 1).flag = 1 ∧
    (Event_wait ⟨1⟩ [halfSecond] timedOutEnv).result = PyResult.Py_True :=
  ⟨Or.inr ⟨_, _, rfl, rfl⟩, rfl,
    (C6_wait_on_set_flag ⟨1⟩ [halfSecond] timedOutEnv (Or.inr ⟨_, _, rfl, rfl⟩) rfl).1⟩

theorem runEvent_append (e : Event) (cs : List EventCall) (c : EventCall) :
    runEvent e (cs ++ [c]) = c.apply (runEvent e cs) := by
  simp [runEvent, List.foldl_append]

theorem Event_new_ok (mi ci : Int) (tr : List Op) (e₀ : Event)
    (h : Event_new mi ci = (tr, Except.ok e₀)) : e₀ = ⟨0⟩ := by
  unfold Event_new at h
  by_cases hm : mi ≠ 0
  · simp [hm] at h
  · by_cases hc : ci ≠ 0
    · simp [hm, hc] at h
    · simp only [hm, hc, if_false, Prod.mk.injEq, Except.ok.injEq] at h
      exact h.2.symm

/-- C7: after any finite sequence of `set` and `clear` calls on an `Event` that was just
constructed, `is_set` returns true if the last call was `set`, false if it was `clear`,
and false if there was no call; and `is_set` never changes the object. -/
theorem C7_is_set_reflects_last_call (mi ci : Int) (tr : List Op) (e₀ : Event)
    (hnew : Event_new mi ci = (tr, Except.ok e₀)) :
    (Event_is_set (runEvent e₀ [])).result = PyResult.Py_False ∧
    (∀ cs : List EventCall,
      (Event_is_set (runEvent e₀ (cs ++ [EventCall.set]))).result = PyResult.Py_True) ∧
    (∀ cs : List EventCall,
      (Event_is_set (runEvent e₀ (cs ++ [EventCall.clear]))).result = PyResult.Py_False) ∧
    (∀ e : Event, (Event_is_set e).state = e ∧ (Event_is_set e).trace = []) := by
  have he := Event_new_ok mi ci tr e₀ hnew
  subst he
  refine ⟨rfl, ?_, ?_, ?_⟩
  · intro cs; rw [runEvent_append]; rfl
  · intro cs; rw [runEvent_append]; rfl
  · intro e
    unfold Event_is_set
    by_cases h : e.flag = 0 <;> simp [h]

/-- Instance of C7: the sequence set, clear, set. -/
theorem C7_is_set_reflects_last_call_witness :
    Event_new 0 0 = ([Op.mutex_init, Op.cond_init, Op.store_flag 0], Except.ok ⟨0⟩) ∧
    (Event_is_set (runEvent ⟨0⟩ ([EventCall.set, EventCall.clear] ++ [EventCall.set]))).result =
      PyResult.Py_True :=
  ⟨rfl, (C7_is_set_reflects_last_call 0 0 _ ⟨0⟩ rfl).2.1 [EventCall.set, EventCall.clear]⟩

/-- C9: when the timeout object does not convert to a number, `Event_wait` and
`SemLock_acquire` both raise the `ValueError` of `parse_timeout`, their trace is empty
(no clock reading, no mutex, no condition wait, no semaphore call), and the object,
with its flag or its `locked` bit and permit count, is unchanged. -/
theorem C9_non_numeric_timeout (ev : Event) (lk : SemLock) (o : PyObject) (env : Env)
    (h : PyFloat_AsDouble o = none) :
    Event_wait ev [o] env =
      ⟨PyResult.raised ⟨PyExc.ValueError, "\x27timeout\x27 is not a valid float", none⟩,
        ev, []⟩ ∧
    SemLock_acquire lk [o] env =
      ⟨PyResult.raised ⟨PyExc.ValueError, "\x27timeout\x27 is not a valid float", none⟩,
        lk, []⟩ := by
  cases o with
  | number d => simp [PyFloat_AsDouble] at h
  | nonNumber => exact ⟨rfl, rfl⟩

/-- Instance of C9: a non-numeric object passed to a wait on a clear flag and to an
acquire on a free lock. -/
theorem C9_non_numeric_timeout_witness :
    PyFloat_AsDouble PyObject.nonNumber = none ∧
    (Event_wait ⟨0⟩ [PyObject.nonNumber] calmEnv).trace = [] ∧
    (SemLock_acquire ⟨1, 0⟩ [PyObject.nonNumber] calmEnv).state = ⟨1, 0⟩ :=
  ⟨rfl,
    congrArg Outcome.trace (C9_non_numeric_timeout ⟨0⟩ ⟨1, 0⟩ PyObject.nonNumber calmEnv rfl).1,
    congrArg Outcome.state (C9_non_numeric_timeout ⟨0⟩ ⟨1, 0⟩ PyObject.nonNumber calmEnv rfl).2⟩

/-! ## The deadline computation -/

/-- A negative timeout (a negative number or minus infinity) gives the deadline of the
timeout 0 for the same environment: `parse_timeout` clamps it first. -/
theorem parse_timeout_negative (d : Double) (env : Env) (h : d.ltZero = true) :
    parse_timeout (PyObject.number d) env =
      parse_timeout (PyObject.number (Double.finite 0 0)) env := by
  have h0 : (Double.finite 0 0).ltZero = false := rfl
  simp only [parse_timeout, PyFloat_AsDouble, h, h0, if_true]
  rfl

/-- On a timeout that needs no rounding the code and the specification agree: the
timeout 0.5 at the clock reading 1700000000.000000 s gives 1700000000.500000000 s. -/
theorem parse_timeout_half_second :
    parse_timeout halfSecond calmEnv =
      ([Op.gettimeofday], Except.ok ⟨1700000000, 500000000⟩) ∧
    compute_deadline_spec ⟨1700000000, 0⟩ (Double.finite 1 (-1)) =
      some ⟨1700000000, 500000000⟩ :=
  ⟨rfl, rfl⟩

/-- C8 (the code departs from the claim): at the clock reading 1700000000.000000 s the
timeout `1 - 2^-24` s (0.99999994 s) gives the deadline 1700000001.999999940 s, one whole
second after the deadline 1700000000.999999940 s that the claim describes. The statement
`timeout->tv_sec += timeout_seconds` adds in `double`, where 1700000000.99999994 rounds
up to 1700000001, and the fraction is then added a second time through `tv_nsec`. -/
theorem C8_deadline_one_second_late :
    parse_timeout (PyObject.number almostOneSecond) calmEnv =
      ([Op.gettimeofday], Except.ok ⟨1700000001, 999999940⟩) ∧
    compute_deadline_spec ⟨1700000000, 0⟩ almostOneSecond =
      some ⟨1700000000, 999999940⟩ ∧
    Double.add (Double.ofLong 1700000000) almostOneSecond =
      Double.finite (1700000001 * 2 ^ 22) (-22) :=
  ⟨rfl, rfl, rfl⟩

/-! ## The parts of the deadline computation that hold: bounds on the rounding -/

theorem bitLengthAux_spec : ∀ (fuel n : Nat), n ≤ fuel →
    n < 2 ^ bitLengthAux fuel n ∧ (n ≠ 0 → 2 ^ (bitLengthAux fuel n - 1) ≤ n) := by
  intro fuel
  induction fuel with
  | zero =>
    intro n hn
    have : n = 0 := by omega
    subst this
    simp [bitLengthAux]
  | succ f ih =>
    intro n hn
    by_cases h0 : n = 0
    · subst h0; simp [bitLengthAux]
    · have hdiv : n / 2 ≤ f := by omega
      obtain ⟨hlt, hge⟩ := ih (n / 2) hdiv
      simp only [bitLengthAux, h0, if_false, Nat.add_sub_cancel]
      constructor
      · rw [pow_succ]; omega
      · intro _
        by_cases h1 : n / 2 = 0
        · have : bitLengthAux f (n / 2) = 0 := by
            rw [h1]; cases f <;> simp [bitLengthAux]
          rw [this]; simp; omega
        · have := hge h1
          have hpos : 0 < bitLengthAux f (n / 2) := by
            by_contra hc
            have hz : bitLengthAux f (n / 2) = 0 := by omega
            rw [hz] at hlt
            omega
          have : 2 ^ bitLengthAux f (n / 2) = 2 ^ (bitLengthAux f (n / 2) - 1) * 2 := by
            rw [← pow_succ]; congr 1; omega
          omega

theorem lt_two_pow_bitLength (n : Nat) : n < 2 ^ bitLength n :=
  (bitLengthAux_spec n n (le_refl n)).1

theorem bitLength_le_of_lt (n k : Nat) (h : n < 2 ^ k) : bitLength n ≤ k := by
  by_cases h0 : n = 0
  · subst h0; simp [bitLength, bitLengthAux]
  · have hge := (bitLengthAux_spec n n (le_refl n)).2 h0
    by_contra hc
    have hk : k ≤ bitLength n - 1 := by unfold bitLength at *; omega
    have : 2 ^ k ≤ 2 ^ (bitLength n - 1) := Nat.pow_le_pow_right (by decide) hk
    unfold bitLength at this
    omega

theorem roundHalfEven_le_succ (S s : Nat) : roundHalfEven S s ≤ S / 2 ^ s + 1 := by
  unfold roundHalfEven
  simp only
  split
  · omega
  · split
    · omega
    · split <;> omega

theorem roundHalfEven_le (S K s : Nat) (h : S ≤ K * 2 ^ s) :
    roundHalfEven S s ≤ K := by
  have hpos : 0 < 2 ^ s := Nat.two_pow_pos _
  have hq : S / 2 ^ s ≤ K := Nat.div_le_of_le_mul (by rw [Nat.mul_comm]; exact h)
  by_cases hlt : S / 2 ^ s < K
  · have := roundHalfEven_le_succ S s
    omega
  · have hqK : S / 2 ^ s = K := by omega
    have hge : K * 2 ^ s ≤ S := by
      rw [← hqK]; exact Nat.div_mul_le_self S (2 ^ s)
    have hS : S = K * 2 ^ s := by omega
    have hr : S % 2 ^ s = 0 := by rw [hS]; exact Nat.mul_mod_left K (2 ^ s)
    have hhalf : 0 < 2 ^ (s - 1) := Nat.two_pow_pos _
    unfold roundHalfEven
    simp only [hr, hhalf, if_true, hqK]
    exact le_refl K

/-- Rounding a value that lies at or below the integer `B` (below `2^53`) gives a finite
double at or below `B`. -/
theorem roundDouble_le (S : Nat) (e : Int) (he : e ≤ 0) (B : Nat) (hB : B < 2 ^ 53)
    (hS : S ≤ B * 2 ^ (-e).toNat) :
    ∃ (n : Nat) (E : Int), roundDouble (S : Int) e = Double.finite (n : Int) E ∧ E ≤ 0 ∧
      n ≤ B * 2 ^ (-E).toNat := by
  have bits_of_le : ∀ (x k : Nat), x ≤ B * 2 ^ k → bitLength x ≤ 53 + k := by
    intro x k hx
    apply bitLength_le_of_lt
    have : B * 2 ^ k < 2 ^ 53 * 2 ^ k := Nat.mul_lt_mul_of_pos_right hB (Nat.two_pow_pos _)
    rw [Nat.pow_add]
    omega
  have hb := bits_of_le S _ hS
  unfold roundDouble
  simp only [Int.natAbs_ofNat]
  by_cases hd : max ((bitLength S : Int) - 53) (-1074 - e) ≤ 0
  · refine ⟨S, e, ?_, he, hS⟩
    have hno : ¬ (1024 < (bitLength S : Int) + e) := by omega
    simp [hd, hno]
  · have hE : e + max ((bitLength S : Int) - 53) (-1074 - e) ≤ 0 := by omega
    have hsplit : (-e).toNat =
        (-(e + max ((bitLength S : Int) - 53) (-1074 - e))).toNat +
          (max ((bitLength S : Int) - 53) (-1074 - e)).toNat := by omega
    have hn : roundHalfEven S (max ((bitLength S : Int) - 53) (-1074 - e)).toNat ≤
        B * 2 ^ (-(e + max ((bitLength S : Int) - 53) (-1074 - e))).toNat := by
      apply roundHalfEven_le
      rw [Nat.mul_assoc, ← Nat.pow_add, ← hsplit]
      exact hS
    refine ⟨_, _, ?_, hE, hn⟩
    have hbn := bits_of_le _ _ hn
    have hno : ¬ (1024 < (bitLength (roundHalfEven S
        (max ((bitLength S : Int) - 53) (-1074 - e)).toNat) : Int) +
        (e + max ((bitLength S : Int) - 53) (-1074 - e))) := by omega
    simp [hd, hno]

/-- Rounding a value below `2^1000` gives a finite double that is not negative. -/
theorem roundDouble_finite (m : Nat) (e : Int) (h : (bitLength m : Int) + e ≤ 1000) :
    ∃ (n : Nat) (E : Int), roundDouble (m : Int) e = Double.finite (n : Int) E := by
  unfold roundDouble
  simp only [Int.natAbs_ofNat]
  by_cases hd : max ((bitLength m : Int) - 53) (-1074 - e) ≤ 0
  · refine ⟨m, e, ?_⟩
    have hno : ¬ (1024 < (bitLength m : Int) + e) := by omega
    simp [hd, hno]
  · refine ⟨roundHalfEven m (max ((bitLength m : Int) - 53) (-1074 - e)).toNat,
      e + max ((bitLength m : Int) - 53) (-1074 - e), ?_⟩
    have hlt := lt_two_pow_bitLength m
    have hdiv : m / 2 ^ (max ((bitLength m : Int) - 53) (-1074 - e)).toNat <
        2 ^ (bitLength m - (max ((bitLength m : Int) - 53) (-1074 - e)).toNat) := by
      apply Nat.div_lt_of_lt_mul
      rw [← Nat.pow_add]
      refine lt_of_lt_of_le hlt (Nat.pow_le_pow_right (by decide) ?_)
      omega
    have hle := roundHalfEven_le_succ m (max ((bitLength m : Int) - 53) (-1074 - e)).toNat
    have hbn : bitLength (roundHalfEven m (max ((bitLength m : Int) - 53) (-1074 - e)).toNat) ≤
        bitLength m - (max ((bitLength m : Int) - 53) (-1074 - e)).toNat + 1 := by
      apply bitLength_le_of_lt
      rw [pow_succ]
      have := Nat.two_pow_pos
        (bitLength m - (max ((bitLength m : Int) - 53) (-1074 - e)).toNat)
      omega
    have hno : ¬ (1024 < (bitLength (roundHalfEven m
        (max ((bitLength m : Int) - 53) (-1074 - e)).toNat) : Int) +
        (e + max ((bitLength m : Int) - 53) (-1074 - e))) := by omega
    simp [hd, hno]

theorem roundDouble_exact (S : Nat) (e : Int) (hb : bitLength S ≤ 53) (he : -1074 ≤ e)
    (h : (bitLength S : Int) + e ≤ 1024) :
    roundDouble (S : Int) e = Double.finite (S : Int) e := by
  unfold roundDouble
  simp only [Int.natAbs_ofNat]
  have hd : max ((bitLength S : Int) - 53) (-1074 - e) ≤ 0 := by omega
  have hno : ¬ (1024 < (bitLength S : Int) + e) := by omega
  simp [hd, hno]

theorem ofLong_NANO_SEC : Double.ofLong NANO_SEC = Double.finite 1000000000 0 := by rfl

/-- The double that `parse_timeout` converts to `tv_nsec` is finite, not negative and at
most 1999999000, for a timeout that is not negative and below `2^63`. -/
theorem nsec_sum_bound (M₀ : Nat) (e₀ : Int) (U : Nat) (hU : U ≤ 999999000)
    (hr : (bitLength M₀ : Int) + e₀ ≤ 63) :
    ∃ (n : Nat) (E : Int),
      Double.add (Double.ofLong (U : Int))
        (Double.fmod (Double.mul (Double.finite (M₀ : Int) e₀) (Double.ofLong NANO_SEC))
          (Double.ofLong NANO_SEC)) = Double.finite (n : Int) E ∧
      E ≤ 0 ∧ n ≤ 1999999000 * 2 ^ (-E).toNat := by
  rw [ofLong_NANO_SEC]
  -- the product
  have hbits : bitLength (M₀ * 1000000000) ≤ bitLength M₀ + 30 := by
    apply bitLength_le_of_lt
    have h1 := lt_two_pow_bitLength M₀
    have h2 : M₀ * 1000000000 < 2 ^ bitLength M₀ * 2 ^ 30 :=
      Nat.mul_lt_mul_of_lt_of_le h1 (by norm_num) (by norm_num)
    rw [Nat.pow_add]
    exact h2
  obtain ⟨P, EP, hP⟩ := roundDouble_finite (M₀ * 1000000000) (e₀ + 0) (by omega)
  have hmul : Double.mul (Double.finite (M₀ : Int) e₀) (Double.finite 1000000000 0) =
      Double.finite (P : Int) EP := by
    show roundDouble ((M₀ : Int) * 1000000000) (e₀ + 0) = _
    rw [← hP]; push_cast; rfl
  rw [hmul]
  -- the remainder
  have hfmod : Double.fmod (Double.finite (P : Int) EP) (Double.finite 1000000000 0) =
      Double.finite
        (((P * 2 ^ (EP - min EP 0).toNat) % (1000000000 * 2 ^ (0 - min EP 0).toNat) : Nat) : Int)
        (min EP 0) := by
    show (if (1000000000 : Int) = 0 then Double.nan else _) = _
    rw [if_neg (by norm_num)]
    simp only
    rw [Int.ofNat_tmod]
    push_cast
    rfl
  rw [hfmod]
  have hRlt : (P * 2 ^ (EP - min EP 0).toNat) % (1000000000 * 2 ^ (0 - min EP 0).toNat) <
      1000000000 * 2 ^ (0 - min EP 0).toNat :=
    Nat.mod_lt _ (Nat.mul_pos (by norm_num) (Nat.two_pow_pos _))
  generalize (P * 2 ^ (EP - min EP 0).toNat) % (1000000000 * 2 ^ (0 - min EP 0).toNat) = R
    at hRlt ⊢
  -- the clock part
  have hUb : bitLength U ≤ 30 := bitLength_le_of_lt U 30 (by norm_num; omega)
  have hofU : Double.ofLong (U : Int) = Double.finite (U : Int) 0 :=
    roundDouble_exact U 0 (by omega) (by norm_num) (by omega)
  rw [hofU]
  -- the sum
  have hmin : min (0 : Int) (min EP 0) = min EP 0 := by omega
  have hadd : Double.add (Double.finite (U : Int) 0) (Double.finite (R : Int) (min EP 0)) =
      roundDouble ((U * 2 ^ (0 - min EP 0).toNat + R : Nat) : Int) (min EP 0) := by
    show roundDouble _ (min 0 (min EP 0)) = _
    rw [hmin]
    congr 1
    have hz : (min EP 0 - min EP 0).toNat = 0 := by omega
    rw [hz]
    push_cast
    ring
  rw [hadd]
  have hk : (0 - min EP 0).toNat = (-(min EP 0)).toNat := by omega
  refine roundDouble_le _ _ (by omega) 1999999000 (by norm_num) ?_
  rw [← hk]
  have := Nat.two_pow_pos (0 - min EP 0).toNat
  have hUk : U * 2 ^ (0 - min EP 0).toNat ≤ 999999000 * 2 ^ (0 - min EP 0).toNat :=
    Nat.mul_le_mul_right _ hU
  omega

/-- A finite double between 0 and an integer below `2^63` converts to a `long` in that
range, whatever the environment would supply for an undefined conversion. -/
theorem toLong_bound (indef : Int) (n : Nat) (E : Int) (B : Nat) (hE : E ≤ 0)
    (hB : (B : Int) < 2 ^ 63) (hn : n ≤ B * 2 ^ (-E).toNat) :
    0 ≤ Double.toLong indef (Double.finite (n : Int) E) ∧
    Double.toLong indef (Double.finite (n : Int) E) ≤ B := by
  have hpos := Nat.two_pow_pos (-E).toNat
  have hq : n / 2 ^ (-E).toNat ≤ B := Nat.div_le_of_le_mul (by rw [Nat.mul_comm]; exact hn)
  unfold Double.toLong
  by_cases h0 : 0 ≤ E
  · have hE0 : E = 0 := by omega
    subst hE0
    simp at hn ⊢
    have h1 : -(2:Int) ^ 63 ≤ (n : Int) := by
      have : (0 : Int) ≤ n := Int.ofNat_nonneg n
      have : (0:Int) < 2 ^ 63 := by norm_num
      omega
    have h2 : (n : Int) < 2 ^ 63 := by
      have : (n : Int) ≤ B := by exact_mod_cast hn
      omega
    have h1' : (-9223372036854775808 : Int) ≤ (n : Int) := by omega
    have h2' : n < 9223372036854775808 := by
      have : (n : Int) < 9223372036854775808 := by omega
      exact_mod_cast this
    rw [if_pos ⟨h1', h2'⟩]
    exact ⟨Int.ofNat_nonneg n, by exact_mod_cast hn⟩
  · have hv : Int.tdiv (n : Int) (2 ^ (-E).toNat) = ((n / 2 ^ (-E).toNat : Nat) : Int) := by
      rw [Int.ofNat_tdiv]; push_cast; rfl
    simp only [h0, if_false, hv]
    have hvB : ((n / 2 ^ (-E).toNat : Nat) : Int) ≤ B := by exact_mod_cast hq
    have hv0 : (0 : Int) ≤ ((n / 2 ^ (-E).toNat : Nat) : Int) := Int.ofNat_nonneg _
    have h1 : -(2:Int) ^ 63 ≤ ((n / 2 ^ (-E).toNat : Nat) : Int) := by
      have : (0:Int) < 2 ^ 63 := by norm_num
      omega
    have h2 : ((n / 2 ^ (-E).toNat : Nat) : Int) < 2 ^ 63 := by omega
    rw [if_pos ⟨h1, h2⟩]
    exact ⟨hv0, hvB⟩

/-- The nanosecond field of the deadline is normalised: when the clock reading has
`0 ≤ tv_usec < 10^6` and the timeout is negative, or finite and below `2^63`, the
deadline `parse_timeout` writes has `0 ≤ tv_nsec < 10^9`. -/
theorem parse_timeout_normalized (d : Double) (env : Env) (now : Timeval) (tr : List Op)
    (ts : Timespec) (hnow : env.now = some now)
    (h0 : 0 ≤ now.tv_usec) (h1 : now.tv_usec < 1000000)
    (hd : d.ltZero = true ∨
      ∃ (M₀ : Nat) (e₀ : Int), d = Double.finite (M₀ : Int) e₀ ∧ (bitLength M₀ : Int) + e₀ ≤ 63)
    (h : parse_timeout (PyObject.number d) env = (tr, Except.ok ts)) :
    0 ≤ ts.tv_nsec ∧ ts.tv_nsec < NANO_SEC := by
  have key : ∀ (M₀ : Nat) (e₀ : Int), (bitLength M₀ : Int) + e₀ ≤ 63 →
      parse_timeout (PyObject.number (Double.finite (M₀ : Int) e₀)) env = (tr, Except.ok ts) →
      0 ≤ ts.tv_nsec ∧ ts.tv_nsec < NANO_SEC := by
    intro M₀ e₀ hr hp
    have hU : (now.tv_usec * 1000).toNat ≤ 999999000 := by omega
    have hcast : (TIMEVAL_TO_TIMESPEC now).tv_nsec = (((now.tv_usec * 1000).toNat : Nat) : Int) := by
      show now.tv_usec * 1000 = _
      omega
    obtain ⟨n, E, hsum, hE, hn⟩ := nsec_sum_bound M₀ e₀ (now.tv_usec * 1000).toNat hU hr
    obtain ⟨hv0, hvB⟩ := toLong_bound env.indef n E 1999999000 hE (by norm_num) hn
    have hlt : (Double.finite (M₀ : Int) e₀).ltZero = false := by
      simp [Double.ltZero]
    simp only [parse_timeout, PyFloat_AsDouble, hnow, hlt, hcast, Bool.false_eq_true,
      if_false, hsum] at hp
    unfold NANO_SEC at hp ⊢
    by_cases hc : (1000000000 : Int) ≤ Double.toLong env.indef (Double.finite (n : Int) E)
    · simp only [hc, if_true, Prod.mk.injEq, Except.ok.injEq] at hp
      rw [← hp.2]
      push_cast at hvB
      show 0 ≤ Double.toLong env.indef (Double.finite (n : Int) E) - 1000000000 ∧
        Double.toLong env.indef (Double.finite (n : Int) E) - 1000000000 < 1000000000
      omega
    · simp only [hc, if_false, Prod.mk.injEq, Except.ok.injEq] at hp
      rw [← hp.2]
      show 0 ≤ Double.toLong env.indef (Double.finite (n : Int) E) ∧
        Double.toLong env.indef (Double.finite (n : Int) E) < 1000000000
      omega
  rcases hd with hneg | ⟨M₀, e₀, rfl, hr⟩
  · rw [parse_timeout_negative d env hneg] at h
    exact key 0 0 (by simp [bitLength, bitLengthAux]) h
  · exact key M₀ e₀ hr h

/-- Instance of `parse_timeout_normalized`: the timeout `1 - 2^-24` at the clock reading
1700000000.999999 s, where the nanoseconds are carried into the seconds. -/
theorem parse_timeout_normalized_witness :
    parse_timeout (PyObject.number almostOneSecond)
        ⟨some ⟨1700000000, 999999⟩, 0, 0, false, 0, 0⟩ =
      ([Op.gettimeofday], Except.ok ⟨1700000002, 999998940⟩) ∧
    (0 : Int) ≤ 999998940 ∧ (999998940 : Int) < NANO_SEC :=
  ⟨rfl,
    parse_timeout_normalized almostOneSecond ⟨some ⟨1700000000, 999999⟩, 0, 0, false, 0, 0⟩
      ⟨1700000000, 999999⟩ [Op.gettimeofday] ⟨1700000002, 999998940⟩ rfl (by decide) (by decide)
      (Or.inr ⟨16777215, -24, rfl, by decide⟩) rfl⟩

/-! ## One `set` against blocked waiters -/

theorem WaitPc.holdsMutex_wake (pc : WaitPc) : pc.wake.holdsMutex = pc.holdsMutex := by
  cases pc <;> rfl

theorem WaitPc.afterSet_wake (pc : WaitPc) : pc.wake.afterSet = pc.afterSet := by
  cases pc <;> rfl

theorem WaitPc.wake_ne_blocked (pc : WaitPc) : pc.wake ≠ WaitPc.cond_blocked := by
  cases pc <;> simp [WaitPc.wake]

theorem WaitPc.remaining_wake (pc : WaitPc) : pc.wake.remaining = pc.remaining := by
  cases pc <;> rfl

/-- The setter's steps keep `SetInv`. -/
theorem SetInv.step_setter {N : Nat} {s : Sys N} (h : SetInv s) : SetInv (stepSetter s) := by
  rcases h.setter_shape with hs | hs | hs | hs
  · have hst : stepSetter s = { s with flag := 1, setter := [Op.cond_broadcast, Op.mutex_unlock] } := by
      simp [stepSetter, hs]
    rw [hst]
    refine ⟨by simp, ?_, h.waiter_owner, Or.inr rfl, h.waiter_ok, by simp⟩
    have := h.setter_owner
    simp [hs] at this
    simp [this]
  · have hst : stepSetter s =
        { s with waiters := fun j => (s.waiters j).wake, setter := [Op.mutex_unlock] } := by
      simp [stepSetter, hs]
    rw [hst]
    refine ⟨by simp, ?_, ?_, ?_, ?_, ?_⟩
    · have := h.setter_owner
      simp [hs] at this
      simp [this]
    · intro i; simp only [WaitPc.holdsMutex_wake]; exact h.waiter_owner i
    · rcases h.flag_set with hf | hf
      · rw [hs] at hf; simp at hf
      · exact Or.inr hf
    · intro i; simp only [WaitPc.afterSet_wake]; exact h.waiter_ok i
    · intro _ i; exact WaitPc.wake_ne_blocked _
  · have hst : stepSetter s = { s with owner := none, setter := [] } := by
      simp [stepSetter, hs]
    rw [hst]
    have hown : s.owner = some Tid.setter := h.setter_owner.2 (by simp [hs])
    refine ⟨by simp, by simp, ?_, ?_, h.waiter_ok, ?_⟩
    · intro i
      have := h.waiter_owner i
      simp [hown] at this
      simp [this]
    · rcases h.flag_set with hf | hf
      · rw [hs] at hf; simp at hf
      · exact Or.inr hf
    · intro _ i; exact h.all_woken (by simp [hs]) i
  · have hst : stepSetter s = s := by simp [stepSetter, hs]
    rw [hst]; exact h

/-- A waiter that holds the mutex excludes the setter from its critical section. -/
theorem SetInv.setter_done_of_holds {N : Nat} {s : Sys N} (h : SetInv s) (i : Fin N)
    (hi : (s.waiters i).holdsMutex = true) : s.setter = [] ∧ s.flag = 1 := by
  have hown : s.owner = some (Tid.waiter i) := (h.waiter_owner i).2 hi
  have hs : s.setter = [] := by
    by_contra hne
    have := h.setter_owner.2 hne
    rw [hown] at this
    simp at this
  refine ⟨hs, ?_⟩
  rcases h.flag_set with hf | hf
  · rw [hs] at hf; simp at hf
  · exact hf

/-- While the mutex is free the setter has finished and no waiter holds it. -/
theorem SetInv.of_free {N : Nat} {s : Sys N} (h : SetInv s) (hfree : s.owner = none) :
    s.setter = [] ∧ s.flag = 1 ∧ ∀ j : Fin N, (s.waiters j).holdsMutex = false := by
  have hs : s.setter = [] := by
    by_contra hne
    have := h.setter_owner.2 hne
    rw [hfree] at this
    simp at this
  refine ⟨hs, ?_, ?_⟩
  · rcases h.flag_set with hf | hf
    · rw [hs] at hf; simp at hf
    · exact hf
  · intro j
    have := h.waiter_owner j
    rw [hfree] at this
    simpa using this

/-- The steps of a waiter keep `SetInv`. -/
theorem SetInv.step_waiter {N : Nat} {s : Sys N} (h : SetInv s) (i : Fin N) :
    SetInv (stepWaiter s i) := by
  have hok := h.waiter_ok i
  cases hpc : s.waiters i with
  | mutex_lock => rw [hpc] at hok; simp [WaitPc.afterSet] at hok
  | test_flag => rw [hpc] at hok; simp [WaitPc.afterSet] at hok
  | cond_blocked =>
    have : stepWaiter s i = s := by simp [stepWaiter, hpc]
    rw [this]; exact h
  | returned r =>
    have : stepWaiter s i = s := by simp [stepWaiter, hpc]
    rw [this]; exact h
  | cond_woken =>
    by_cases hfree : s.owner = none
    · obtain ⟨hs, hflag, hnone⟩ := h.of_free hfree
      have hst : stepWaiter s i =
          { s with owner := some (Tid.waiter i),
                   waiters := Function.update s.waiters i WaitPc.read_flag } := by
        simp [stepWaiter, hpc, hfree]
      rw [hst]
      refine ⟨h.setter_shape, by simp [hs], ?_, Or.inr hflag, ?_, ?_⟩
      · intro j
        by_cases hj : j = i
        · subst hj; simp [WaitPc.holdsMutex]
        · have hne : i ≠ j := fun e => hj e.symm
          simp [Function.update_noteq hj, hnone j, hne]
      · intro j
        by_cases hj : j = i
        · subst hj; simp [WaitPc.afterSet]
        · simp [Function.update_noteq hj, h.waiter_ok j]
      · intro hl j
        by_cases hj : j = i
        · subst hj; simp
        · simp only [Function.update_noteq hj]; exact h.all_woken hl j
    · have : stepWaiter s i = s := by simp [stepWaiter, hpc, hfree]
      rw [this]; exact h
  | read_flag =>
    obtain ⟨hs, hflag⟩ := h.setter_done_of_holds i (by rw [hpc]; rfl)
    have hown : s.owner = some (Tid.waiter i) := (h.waiter_owner i).2 (by rw [hpc]; rfl)
    have hst : stepWaiter s i =
        { s with waiters := Function.update s.waiters i (WaitPc.mutex_unlock 1) } := by
      simp [stepWaiter, hpc, hflag]
    rw [hst]
    refine ⟨h.setter_shape, h.setter_owner, ?_, h.flag_set, ?_, ?_⟩
    · intro j
      by_cases hj : j = i
      · subst hj; simp [WaitPc.holdsMutex, hown]
      · simp only [Function.update_noteq hj]; exact h.waiter_owner j
    · intro j
      by_cases hj : j = i
      · subst hj; simp [WaitPc.afterSet]
      · simp [Function.update_noteq hj, h.waiter_ok j]
    · intro hl j
      by_cases hj : j = i
      · subst hj; simp
      · simp only [Function.update_noteq hj]; exact h.all_woken hl j
  | mutex_unlock f =>
    obtain ⟨hs, hflag⟩ := h.setter_done_of_holds i (by rw [hpc]; rfl)
    have hown : s.owner = some (Tid.waiter i) := (h.waiter_owner i).2 (by rw [hpc]; rfl)
    have hf : f = 1 := by rw [hpc] at hok; simpa [WaitPc.afterSet] using hok
    have hst : stepWaiter s i =
        { s with owner := none,
                 waiters := Function.update s.waiters i (WaitPc.returned PyResult.Py_True) } := by
      simp [stepWaiter, hpc, hf]
    rw [hst]
    refine ⟨h.setter_shape, by simp [hs], ?_, h.flag_set, ?_, ?_⟩
    · intro j
      by_cases hj : j = i
      · subst hj; simp [WaitPc.holdsMutex]
      · have hne : i ≠ j := fun e => hj e.symm
        have := h.waiter_owner j
        rw [hown] at this
        simp [hne] at this
        simp [Function.update_noteq hj, this]
    · intro j
      by_cases hj : j = i
      · subst hj; simp [WaitPc.afterSet]
      · simp [Function.update_noteq hj, h.waiter_ok j]
    · intro hl j
      by_cases hj : j = i
      · subst hj; simp
      · simp only [Function.update_noteq hj]; exact h.all_woken hl j

/-- A spurious wakeup keeps `SetInv`. -/
theorem SetInv.step_spurious {N : Nat} {s : Sys N} (h : SetInv s) (i : Fin N) :
    SetInv (s.step (Action.spurious i)) := by
  show SetInv { s with waiters := Function.update s.waiters i (s.waiters i).wake }
  refine ⟨h.setter_shape, h.setter_owner, ?_, h.flag_set, ?_, ?_⟩
  · intro j
    by_cases hj : j = i
    · subst hj; simp [WaitPc.holdsMutex_wake]; exact h.waiter_owner j
    · simp only [Function.update_noteq hj]; exact h.waiter_owner j
  · intro j
    by_cases hj : j = i
    · subst hj; simp [WaitPc.afterSet_wake]; exact h.waiter_ok j
    · simp [Function.update_noteq hj, h.waiter_ok j]
  · intro hl j
    by_cases hj : j = i
    · subst hj; simp [WaitPc.wake_ne_blocked]
    · simp only [Function.update_noteq hj]; exact h.all_woken hl j

/-- Every action keeps `SetInv`. -/
theorem SetInv.step_action {N : Nat} {s : Sys N} (h : SetInv s) (a : Action N) : SetInv (s.step a) := by
  cases a with
  | run t =>
    cases t with
    | setter => exact h.step_setter
    | waiter i => exact h.step_waiter i
  | spurious i => exact h.step_spurious i

/-- Every schedule keeps `SetInv`. -/
theorem SetInv.run_schedule {N : Nat} (sched : List (Action N)) :
    ∀ {s : Sys N}, SetInv s → SetInv (runSys s sched) := by
  induction sched with
  | nil => intro s h; exact h
  | cons a rest ih => intro s h; exact ih (h.step_action a)

/-- The setter taking the mutex while all waiters are asleep establishes `SetInv`. -/
theorem SetInv.at_guard (N : Nat) (flag₀ : Fin 2) :
    SetInv ((blockedWaiters N flag₀).step (Action.run Tid.setter)) := by
  have hst : (blockedWaiters N flag₀).step (Action.run Tid.setter) =
      ⟨flag₀, some Tid.setter, [Op.store_flag 1, Op.cond_broadcast, Op.mutex_unlock],
        fun _ => WaitPc.cond_blocked⟩ := rfl
  rw [hst]
  exact ⟨Or.inl rfl, by simp, by intro i; simp [WaitPc.holdsMutex], Or.inl rfl,
    by intro i; rfl, by simp⟩

theorem runSys_append {N : Nat} (a b : List (Action N)) :
    ∀ s : Sys N, runSys s (a ++ b) = runSys (runSys s a) b := by
  induction a with
  | nil => intro s; rfl
  | cons x rest ih => intro s; exact ih (s.step x)

/-- Moving one waiter to a place with fewer steps left lowers the total. -/
theorem remaining_update_lt {N : Nat} (s : Sys N) (i : Fin N) (x : WaitPc)
    (o : Option (Tid N)) (hx : x.remaining < (s.waiters i).remaining) :
    Sys.remaining { s with owner := o, waiters := Function.update s.waiters i x } <
      s.remaining := by
  unfold Sys.remaining
  apply Nat.add_lt_add_left
  apply Finset.sum_lt_sum
  · intro j _
    by_cases hj : j = i
    · subst hj; simp; exact Nat.le_of_lt hx
    · simp [Function.update_noteq hj]
  · exact ⟨i, Finset.mem_univ i, by simpa using hx⟩

/-- As long as a waiter has not returned, some thread can take a step: no waiter is
left asleep once the setter is through. -/
theorem SetInv.progress {N : Nat} {s : Sys N} (h : SetInv s)
    (hnot : ¬ ∀ i : Fin N, s.waiters i = WaitPc.returned PyResult.Py_True) :
    ∃ t : Tid N, (s.step (Action.run t)).remaining < s.remaining := by
  have stepW : ∀ j : Fin N, (s.waiters j).holdsMutex = true →
      (stepWaiter s j).remaining < s.remaining := by
    intro j hj
    obtain ⟨-, hflag⟩ := h.setter_done_of_holds j hj
    have hok := h.waiter_ok j
    cases hpc : s.waiters j with
    | mutex_lock => rw [hpc] at hj; simp [WaitPc.holdsMutex] at hj
    | cond_blocked => rw [hpc] at hj; simp [WaitPc.holdsMutex] at hj
    | cond_woken => rw [hpc] at hj; simp [WaitPc.holdsMutex] at hj
    | returned r => rw [hpc] at hj; simp [WaitPc.holdsMutex] at hj
    | test_flag => rw [hpc] at hok; simp [WaitPc.afterSet] at hok
    | read_flag =>
      have hst : stepWaiter s j =
          { s with owner := s.owner,
                   waiters := Function.update s.waiters j (WaitPc.mutex_unlock 1) } := by
        simp [stepWaiter, hpc, hflag]
      rw [hst]
      exact remaining_update_lt s j _ _ (by rw [hpc]; decide)
    | mutex_unlock f =>
      have hst : stepWaiter s j =
          { s with owner := none,
                   waiters := Function.update s.waiters j
                     (WaitPc.returned (if f = 1 then PyResult.Py_True else PyResult.Py_False)) } := by
        simp [stepWaiter, hpc]
      rw [hst]
      exact remaining_update_lt s j _ _ (by rw [hpc]; simp [WaitPc.remaining])
  cases hown : s.owner with
  | none =>
    obtain ⟨hs, -, hnone⟩ := h.of_free hown
    push_neg at hnot
    obtain ⟨i, hi⟩ := hnot
    refine ⟨Tid.waiter i, ?_⟩
    have hok := h.waiter_ok i
    have hh := hnone i
    cases hpc : s.waiters i with
    | mutex_lock => rw [hpc] at hok; simp [WaitPc.afterSet] at hok
    | test_flag => rw [hpc] at hok; simp [WaitPc.afterSet] at hok
    | cond_blocked => exact absurd hpc (h.all_woken (by simp [hs]) i)
    | read_flag => rw [hpc] at hh; simp [WaitPc.holdsMutex] at hh
    | mutex_unlock f => rw [hpc] at hh; simp [WaitPc.holdsMutex] at hh
    | returned r =>
      rw [hpc] at hok
      have hr : r = PyResult.Py_True := by simpa [WaitPc.afterSet] using hok
      rw [hpc, hr] at hi
      exact absurd rfl hi
    | cond_woken =>
      have hst : s.step (Action.run (Tid.waiter i)) =
          { s with owner := some (Tid.waiter i),
                   waiters := Function.update s.waiters i WaitPc.read_flag } := by
        simp [Sys.step, stepWaiter, hpc, hown]
      rw [hst]
      exact remaining_update_lt s i _ _ (by rw [hpc]; decide)
  | some t =>
    cases t with
    | waiter j => exact ⟨Tid.waiter j, stepW j ((h.waiter_owner j).1 hown)⟩
    | setter =>
      refine ⟨Tid.setter, ?_⟩
      have hne : s.setter ≠ [] := h.setter_owner.1 hown
      show (stepSetter s).remaining < s.remaining
      rcases h.setter_shape with hs | hs | hs | hs
      · simp [stepSetter, hs, Sys.remaining]
      · simp [stepSetter, hs, Sys.remaining, WaitPc.remaining_wake]
      · simp [stepSetter, hs, Sys.remaining]
      · exact absurd hs hne

/-- From every state that satisfies `SetInv` the threads can be run, without any
spurious wakeup, until every waiter has returned true. -/
theorem SetInv.completes {N : Nat} (n : Nat) :
    ∀ s : Sys N, s.remaining ≤ n → SetInv s →
      ∃ more : List (Tid N),
        ∀ i : Fin N, (runSys s (more.map Action.run)).waiters i =
          WaitPc.returned PyResult.Py_True := by
  induction n with
  | zero =>
    intro s hn h
    by_cases hdone : ∀ i : Fin N, s.waiters i = WaitPc.returned PyResult.Py_True
    · exact ⟨[], hdone⟩
    · obtain ⟨t, ht⟩ := h.progress hdone
      omega
  | succ n ih =>
    intro s hn h
    by_cases hdone : ∀ i : Fin N, s.waiters i = WaitPc.returned PyResult.Py_True
    · exact ⟨[], hdone⟩
    · obtain ⟨t, ht⟩ := h.progress hdone
      obtain ⟨more, hmore⟩ := ih (s.step (Action.run t)) (by omega) (h.step_action _)
      exact ⟨t :: more, hmore⟩

/-- C10: `Event_set` takes the mutex, stores 1 to the flag, broadcasts on the condition
(it never signals a single waiter) and only then gives the mutex up. Hence, with `N`
threads asleep in `wait` without a timeout when the setter takes the mutex: whatever
the scheduler does afterwards (spurious wakeups included) a waiter that returns returns
true, and after every schedule the threads can be run on, with no help from a spurious
wakeup, until all `N` waiters have returned true. -/
theorem C10_set_wakes_all_waiters (N : Nat) (flag₀ : Fin 2) :
    (∀ e : Event,
      (Event_set e).trace =
        [Op.mutex_lock, Op.store_flag 1, Op.cond_broadcast, Op.mutex_unlock] ∧
      Op.cond_signal ∉ (Event_set e).trace ∧ (Event_set e).state.flag = 1) ∧
    (∀ (rest : List (Action N)) (i : Fin N) (r : PyResult),
      (runSys (blockedWaiters N flag₀) (Action.run Tid.setter :: rest)).waiters i =
        WaitPc.returned r → r = PyResult.Py_True) ∧
    (∀ rest : List (Action N), ∃ more : List (Tid N), ∀ i : Fin N,
      (runSys (blockedWaiters N flag₀)
        ((Action.run Tid.setter :: rest) ++ more.map Action.run)).waiters i =
        WaitPc.returned PyResult.Py_True) := by
  refine ⟨fun e => ⟨rfl, by simp [Event_set], rfl⟩, ?_, ?_⟩
  · intro rest i r hr
    have hinv : SetInv (runSys (blockedWaiters N flag₀) (Action.run Tid.setter :: rest)) :=
      SetInv.run_schedule rest (SetInv.at_guard N flag₀)
    have hok := hinv.waiter_ok i
    rw [hr] at hok
    simpa [WaitPc.afterSet] using hok
  · intro rest
    have hinv : SetInv (runSys (blockedWaiters N flag₀) (Action.run Tid.setter :: rest)) :=
      SetInv.run_schedule rest (SetInv.at_guard N flag₀)
    obtain ⟨more, hmore⟩ := SetInv.completes _ _ (le_refl _) hinv
    refine ⟨more, fun i => ?_⟩
    have := runSys_append (Action.run Tid.setter :: rest) (more.map Action.run)
      (blockedWaiters N flag₀)
    rw [this]
    exact hmore i

/-- Instance of C10: two waiters asleep; the setter takes the mutex, waiter 0 is woken
spuriously and finds the mutex taken, the setter finishes, both waiters run on. -/
theorem C10_set_wakes_all_waiters_witness :
    (runSys (blockedWaiters 2 0)
      [Action.run Tid.setter, Action.spurious 0, Action.run (Tid.waiter 0),
        Action.run Tid.setter, Action.run Tid.setter, Action.run Tid.setter,
        Action.run (Tid.waiter 1), Action.run (Tid.waiter 1), Action.run (Tid.waiter 1),
        Action.run (Tid.waiter 0), Action.run (Tid.waiter 0),
        Action.run (Tid.waiter 0)]).waiters 0 = WaitPc.returned PyResult.Py_True ∧
    PyResult.Py_True = PyResult.Py_True ∧
    ∃ more : List (Tid 2), ∀ i : Fin 2,
      (runSys (blockedWaiters 2 0)
        ((Action.run Tid.setter :: [Action.spurious 0, Action.run (Tid.waiter 0)]) ++
          more.map Action.run)).waiters i = WaitPc.returned PyResult.Py_True :=
  ⟨by decide,
    (C10_set_wakes_all_waiters 2 0).2.1
      [Action.spurious 0, Action.run (Tid.waiter 0),
        Action.run Tid.setter, Action.run Tid.setter, Action.run Tid.setter,
        Action.run (Tid.waiter 1), Action.run (Tid.waiter 1), Action.run (Tid.waiter 1),
        Action.run (Tid.waiter 0), Action.run (Tid.waiter 0), Action.run (Tid.waiter 0)]
      0 PyResult.Py_True (by decide),
    (C10_set_wakes_all_waiters 2 0).2.2 [Action.spurious 0, Action.run (Tid.waiter 0)]⟩

end PthreadEvent
